import Mathlib

/-!
Verification development for the eBay seller-listing aggregation pipeline
(`src/lib/ebay/browseAxios.ts` and `src/lib/ebay/auth.ts`).

The TypeScript sources are shallowly embedded here:

* pure functions (`extractLegacyId`, `sortForDisplay`, the dedup merge of
  `fetchSellerListings`) become Lean functions on explicit record types;
* the network is an explicit oracle (a function from requests to responses);
  axios with `validateStatus: () => true` resolves every HTTP response, so an
  HTTP error status is modelled as a returned response and only transport
  failure (all retries throw) is modelled as `none`;
* `while` loops become fuel-indexed structural recursion; a thrown JS
  exception (or fuel exhaustion) is `Except.error`;
* module-level mutable state (`shoppingApiBlockedUntil`, `cachedToken`) is
  threaded explicitly; `Date.now()` is an explicit `now : Nat` (milliseconds);
* concurrency: enrichment tasks each write only their own output index, so the
  embedding is the (completion-order independent) per-index function.

Every function that dispatches network traffic also returns a trace of
dispatched requests, which lets theorems speak about which requests were (or
were not) sent.
-/

/-- Canonical normalized record (`NormalizedRow` in `browseAxios.ts`).
`null`-able TypeScript fields become `Option`; `watchCount : number | null`
becomes `Option Int`. -/
structure NormalizedRow where
  itemId : Option String := none
  title : Option String := none
  priceValue : Option String := none
  priceCurrency : Option String := none
  url : Option String := none
  seller : Option String := none
  itemCreationDate : Option String := none
  watchCount : Option Int := none
deriving Repr, DecidableEq

/-- Browse-API item shape (`SampleItem` in `browseAxios.ts`); the nested
`price.value` / `price.currency` and `seller.username` objects are flattened
into optional fields. -/
structure SampleItem where
  itemId : Option String := none
  title : Option String := none
  priceValue : Option String := none
  priceCurrency : Option String := none
  itemWebUrl : Option String := none
  sellerUsername : Option String := none
  itemCreationDate : Option String := none
  watchCount : Option Int := none
deriving Repr, DecidableEq

/-- Maximal run of ASCII digits at the head of the character list, together
with the remainder (the greedy `[0-9]{6,}` step of the source regexes). -/
def digitRun : List Char → List Char × List Char
  | [] => ([], [])
  | c :: rest =>
    if c.isDigit then
      let p := digitRun rest
      (c :: p.1, p.2)
    else ([], c :: rest)

/-- One anchored attempt of `\/itm\/([0-9]{6,})(?:[\/?]|$)` at the current
position: the literal `/itm/`, then a digit run of length ≥ 6 whose greedy end
is followed by `/`, `?` or the end of the string.  (Backtracking inside the
digit run cannot help, because a shorter run is followed by a digit.) -/
def itmHere (l : List Char) : Option (List Char) :=
  if ([ '/', 'i', 't', 'm', '/' ] : List Char).isPrefixOf l then
    let p := digitRun (l.drop 5)
    if 6 ≤ p.1.length ∧ (p.2 = [] ∨ p.2.head? = some '/' ∨ p.2.head? = some '?') then
      some p.1
    else none
  else none

/-- Regex scan for `\/itm\/([0-9]{6,})(?:[\/?]|$)`: try every start position
from the left, first full match wins. -/
def itmScan : List Char → Option (List Char)
  | [] => none
  | c :: rest =>
    match itmHere (c :: rest) with
    | some d => some d
    | none => itmScan rest

/-- `url.match(/\/itm\/([0-9]{6,})(?:[\/?]|$)/)`, returning the captured digit
group. -/
def itmPathId (s : String) : Option String :=
  (itmScan s.data).map (fun l => String.mk l)

/-- One anchored attempt of `(?:\?|&)item=([0-9]{6,})` at the current
position. -/
def itemEqHere (l : List Char) : Option (List Char) :=
  match l with
  | [] => none
  | c :: rest =>
    if (c = '?' ∨ c = '&') ∧ ([ 'i', 't', 'e', 'm', '=' ] : List Char).isPrefixOf rest then
      let p := digitRun (rest.drop 5)
      if 6 ≤ p.1.length then some p.1 else none
    else none

/-- Regex scan for `(?:\?|&)item=([0-9]{6,})`. -/
def itemEqScan : List Char → Option (List Char)
  | [] => none
  | c :: rest =>
    match itemEqHere (c :: rest) with
    | some d => some d
    | none => itemEqScan rest

/-- `url.match(/(?:\?|&)item=([0-9]{6,})/)`, returning the captured digit
group. -/
def itemQueryId (s : String) : Option String :=
  (itemEqScan s.data).map (fun l => String.mk l)

/-- JavaScript `String.prototype.split("|")` on a character list. -/
def splitBar : List Char → List (List Char)
  | [] => [[]]
  | c :: rest =>
    let r := splitBar rest
    if c = '|' then [] :: r
    else
      match r with
      | h :: t => (c :: h) :: t
      | [] => [[ c ]]

/-- The composite-itemId surface of `extractLegacyId`:
`itemId.split("|")`, requiring at least two parts and
`/^[0-9]{6,}$/.test(parts[1])`. -/
def compositeId (itemId : String) : Option String :=
  let parts := splitBar itemId.data
  match parts.get? 1 with
  | some p => if 6 ≤ p.length ∧ p.all Char.isDigit then some (String.mk p) else none
  | none => none

/-- `extractLegacyId` (`browseAxios.ts` lines 361–375).  The source first
tests `row.url` (path segment `/itm/<id>`, then query parameter `item=<id>`)
and only afterwards the composite `itemId`.  JavaScript truthiness of an empty
string is immaterial here because the empty string matches neither regex and
`"".split("|")` has a single part. -/
def extractLegacyId (row : NormalizedRow) : Option String :=
  match row.url with
  | some u =>
    match itmPathId u with
    | some d => some d
    | none =>
      match itemQueryId u with
      | some d => some d
      | none =>
        match row.itemId with
        | some iid => compositeId iid
        | none => none
  | none =>
    match row.itemId with
    | some iid => compositeId iid
    | none => none

/-- A Browse-API search-page request as assembled by `searchOnce`
(`browseAxios.ts` lines 140–168): accumulated `offset`, page `limit`, the
optional `price:[lo..hi]` band filter, whether the
`itemLocationCountry` filter is applied, and the continuation URL (if the
previous page supplied one). -/
structure SearchReq where
  offset : Nat
  limit : Nat
  price : Option (Nat × Nat)
  useLocation : Bool
  nextUrl : Option String
deriving Repr, DecidableEq

/-- A Browse-API response as seen by the callers of `searchOnce`.  Because the
source passes `validateStatus: () => true` to axios, *every* HTTP response
resolves normally (axios only rejects on transport failure), so an HTTP error
body is an ordinary `SearchRes` whose `itemSummaries` is empty and whose
`errorId` carries `errors[0].errorId`. -/
structure SearchRes where
  status : Nat := 200
  errorId : Option Nat := none
  itemSummaries : List SampleItem := []
  next : Option String := none
deriving Repr, DecidableEq

/-- The network oracle for the Browse API: `none` means every one of the three
transport attempts inside `searchOnce` threw, after which `searchOnce` throws
`"network unreachable while calling Browse API"`. -/
def BrowseNet := SearchReq → Option SearchRes

/-- Events dispatched to the network by the retriever; theorems use the trace
to state which requests were (not) sent. -/
inductive NetEvent where
  | browse (req : SearchReq)
  | webScrape (desired : Nat)
  | itemLookup (id : Nat)
deriving Repr, DecidableEq

/-- `typeof res.data?.next === "string" ? res.data.next : undefined` followed
by the `if (nextUrl)` / `!nextUrl` truthiness tests in the loops: the empty
string is falsy in JavaScript, so it behaves exactly like an absent
continuation and is normalized to `none`. -/
def normNext : Option String → Option String
  | none => none
  | some s => if s = "" then none else some s

/-- The `tryLinear` loop (`browseAxios.ts` lines 170–195): page with
`limit = min(200, maxPerSeller - acc.length)` while `acc.length <
maxPerSeller`, stop on an empty page without continuation.  A transport
failure throws (a returned HTTP 400 body — including errorId 12023 — does
*not* throw, because `validateStatus` accepts it; its `itemSummaries` is
simply empty).  The `catch` inside the source `tryLinear` rethrows every
caught error, so it is behaviorally the identity. -/
def tryLinearLoop (net : BrowseNet) (maxPer : Nat) :
    Nat → Nat → Option String → List SampleItem →
    Except Unit (List SampleItem) × List NetEvent
  | 0, _, _, _ => (Except.error (), [])
  | fuel + 1, offset, nextUrl, acc =>
    if acc.length < maxPer then
      let lim := min 200 (maxPer - acc.length)
      let req : SearchReq := ⟨offset, lim, none, true, nextUrl⟩
      match net req with
      | none => (Except.error (), [NetEvent.browse req])
      | some res =>
        let items := res.itemSummaries
        let acc2 := acc ++ items
        let next2 := normNext res.next
        if items = [] ∧ next2 = none then (Except.ok acc2, [NetEvent.browse req])
        else
          let r := tryLinearLoop net maxPer fuel (offset + items.length) next2 acc2
          (r.1, NetEvent.browse req :: r.2)
    else (Except.ok acc, [])

/-- The fixed ordered price bands of `tryPriceBands` (`browseAxios.ts`
lines 198–207); note the final band is `[5000, 1000000]`, not unbounded. -/
def priceBands : List (Nat × Nat) :=
  [(0, 20), (20, 50), (50, 100), (100, 200), (200, 500),
   (500, 1000), (1000, 5000), (5000, 1000000)]

/-- The inner paging loop of `tryPriceBands` for a single band
(`browseAxios.ts` lines 211–230).  As in `tryLinearLoop`, a returned
error body does not throw; only transport failure does, and that failure
propagates (the `errorId === 12023 → break` test in the source `catch` can
never fire, since a caught error is never an HTTP response). -/
def bandLoop (net : BrowseNet) (maxPer : Nat) (band : Nat × Nat) :
    Nat → Nat → Option String → List SampleItem →
    Except Unit (List SampleItem) × List NetEvent
  | 0, _, _, _ => (Except.error (), [])
  | fuel + 1, offset, nextUrl, acc =>
    if acc.length < maxPer then
      let lim := min 200 (maxPer - acc.length)
      let req : SearchReq := ⟨offset, lim, some band, true, nextUrl⟩
      match net req with
      | none => (Except.error (), [NetEvent.browse req])
      | some res =>
        let items := res.itemSummaries
        let acc2 := acc ++ items
        let next2 := normNext res.next
        if items = [] ∧ next2 = none then (Except.ok acc2, [NetEvent.browse req])
        else
          let r := bandLoop net maxPer band fuel (offset + items.length) next2 acc2
          (r.1, NetEvent.browse req :: r.2)
    else (Except.ok acc, [])

/-- The outer `for (const band of bands)` loop of `tryPriceBands`
(`browseAxios.ts` lines 209–231): stop when `acc.length >= maxPerSeller`,
otherwise run the band's paging loop on the shared accumulator. -/
def bandsLoop (net : BrowseNet) (maxPer fuel : Nat) :
    List (Nat × Nat) → List SampleItem →
    Except Unit (List SampleItem) × List NetEvent
  | [], acc => (Except.ok acc, [])
  | band :: rest, acc =>
    if acc.length < maxPer then
      match bandLoop net maxPer band fuel 0 none acc with
      | (Except.error e, log) => (Except.error e, log)
      | (Except.ok acc2, log) =>
        let r := bandsLoop net maxPer fuel rest acc2
        (r.1, log ++ r.2)
    else (Except.ok acc, [])

/-- `tryPriceBands` (`browseAxios.ts` lines 197–233). -/
def tryPriceBands (net : BrowseNet) (maxPer fuel : Nat) :
    Except Unit (List SampleItem) × List NetEvent :=
  bandsLoop net maxPer fuel priceBands []

/-- JavaScript truthiness of `it.itemId` (`if (it.itemId) ...`): present and
not the empty string. -/
def keyOf (it : SampleItem) : Option String :=
  match it.itemId with
  | some s => if s = "" then none else some s
  | none => none

/-- A JavaScript `Map<string, SampleItem>` preserving insertion order: keys
are unique; `set` on an existing key replaces the value in place. -/
abbrev ItemMap := List (String × SampleItem)

/-- `dedup.has(k)`. -/
def mapHas : ItemMap → String → Bool
  | [], _ => false
  | p :: t, k => p.1 = k || mapHas t k

/-- `dedup.set(k, v)`: replace in place if the key exists (keeping its
insertion position), otherwise append. -/
def mapSet (m : ItemMap) (k : String) (v : SampleItem) : ItemMap :=
  if mapHas m k then List.map (fun p => if p.1 = k then (k, v) else p) m
  else m ++ [(k, v)]

/-- `dedup.get(k)` (for specification purposes). -/
def mapLookup : ItemMap → String → Option SampleItem
  | [], _ => none
  | p :: t, k => if p.1 = k then some p.2 else mapLookup t k

/-- `Array.from(dedup.values())` (insertion order). -/
def mapValues (m : ItemMap) : List SampleItem :=
  List.map (fun p => p.2) m

/-- One record of the first-batch dedup fold: `if (it.itemId)
dedup.set(it.itemId, it)` — an unconditional `set`. -/
def dedupStep (m : ItemMap) (it : SampleItem) : ItemMap :=
  match keyOf it with
  | some k => mapSet m k it
  | none => m

/-- The first-batch dedup fold of `fetchSellerListings`
(`browseAxios.ts` lines 241–242): `for (const it of first) if (it.itemId)
dedup.set(it.itemId, it)` — an unconditional `set`, so a later record with
the same `itemId` *overwrites* an earlier one. -/
def dedupFirst (first : List SampleItem) : ItemMap :=
  List.foldl dedupStep [] first

/-- The guarded insert used for the unfiltered retry and web-scrape phases
(`if (it.itemId && !dedup.has(it.itemId)) dedup.set(...)`): an existing key
is left untouched, so across phases the earlier phase's record wins. -/
def addItemIfAbsent (m : ItemMap) (it : SampleItem) : ItemMap :=
  match keyOf it with
  | some k => if mapHas m k then m else mapSet m k it
  | none => m

/-- The unfiltered shortfall-retry paging loop of `fetchSellerListings`
(`browseAxios.ts` lines 243–253), merging into the dedup map with
first-phase preference.  A transport failure throws out of the whole `try`
block (reaching the price-band `catch`). -/
def unfilteredLoop (net : BrowseNet) (maxPer : Nat) :
    Nat → Nat → Option String → ItemMap →
    Except Unit ItemMap × List NetEvent
  | 0, _, _, _ => (Except.error (), [])
  | fuel + 1, offset, nextUrl, dedup =>
    if List.length dedup < maxPer then
      let lim := min 200 (maxPer - List.length dedup)
      let req : SearchReq := ⟨offset, lim, none, false, nextUrl⟩
      match net req with
      | none => (Except.error (), [NetEvent.browse req])
      | some res =>
        let items := res.itemSummaries
        let dedup2 := List.foldl addItemIfAbsent dedup items
        let next2 := normNext res.next
        if items = [] ∧ next2 = none then (Except.ok dedup2, [NetEvent.browse req])
        else
          let r := unfilteredLoop net maxPer fuel (offset + items.length) next2 dedup2
          (r.1, NetEvent.browse req :: r.2)
    else (Except.ok dedup, [])

/-- The web-extra merge loop (`browseAxios.ts` lines 259–262): insert each
scraped record if its key is absent, stopping once the map reaches
`maxPerSeller` entries. -/
def addExtra (maxPer : Nat) : ItemMap → List SampleItem → ItemMap
  | dedup, [] => dedup
  | dedup, it :: rest =>
    let d2 := addItemIfAbsent dedup it
    if maxPer ≤ List.length d2 then d2 else addExtra maxPer d2 rest

/-- First-seen-order deduplication of the numeric IDs scraped from the search
results page (the `Set<number>` in `searchWebForLegacyIds`). -/
def dedupNats : List Nat → List Nat
  | [] => []
  | n :: rest =>
    let r := dedupNats rest
    n :: List.filter (fun m => ¬ m = n) r

/-- `searchWebForLegacyIds` (`browseAxios.ts` lines 842–875): the scraped page
markup is abstracted to the stream `webIds` of numeric IDs its two regex
patterns produce, collected into a set until `desired` reached and sliced;
any axios failure is caught and yields `[]` (modelled by an empty stream). -/
def searchWebForLegacyIds (webIds : List Nat) (desired : Nat) : List Nat :=
  List.take desired (dedupNats webIds)

/-- `fetchItemsByLegacyIds` (`browseAxios.ts` lines 877–895): per-ID
`get_item_by_legacy_id` lookups (oracle `itemById`; `none` models a caught
per-item failure, which is dropped), order preserved. -/
def fetchItemsByLegacyIds (itemById : Nat → Option SampleItem) (ids : List Nat) :
    List SampleItem × List NetEvent :=
  (List.filterMap itemById ids, List.map NetEvent.itemLookup ids)

/-- `fallbackSearchByWeb` (`browseAxios.ts` lines 897–902). -/
def fallbackSearchByWeb (webIds : List Nat) (itemById : Nat → Option SampleItem)
    (maxPerSeller : Nat) : List SampleItem × List NetEvent :=
  let ids := searchWebForLegacyIds webIds maxPerSeller
  if ids = [] then ([], [NetEvent.webScrape maxPerSeller])
  else
    let r := fetchItemsByLegacyIds itemById ids
    (List.take maxPerSeller r.1, NetEvent.webScrape maxPerSeller :: r.2)

/-- `generateMockData` (`browseAxios.ts` lines 44–66), with the calls to
`Math.random()` abstracted into the oracles `rndPrice`, `rndWatch`,
`rndDate` (indexed by seller index and item index); the source computes
`floor(random()*1000)+10` and `floor(random()*50)+1`, modelled by `% 1000`
and `% 50` of the oracle value.  `mockItem` is one generated item. -/
def mockItem (rndPrice rndWatch : Nat → Nat → Nat) (rndDate : Nat → Nat → String)
    (seller : String) (sellerIndex i : Nat) : SampleItem where
  itemId := some ("mock_" ++ toString sellerIndex ++ "_" ++ toString i)
  title := some ("[モック] " ++ seller ++ "の商品 " ++ toString (i + 1) ++
    " - Pokemon Card Set")
  priceValue := some (toString (rndPrice sellerIndex i % 1000 + 10))
  priceCurrency := some "USD"
  itemWebUrl := some ("https://www.ebay.com/itm/mock_" ++ toString sellerIndex ++
    "_" ++ toString i)
  sellerUsername := some seller
  itemCreationDate := some (rndDate sellerIndex i)
  watchCount := some (Int.ofNat (rndWatch sellerIndex i % 50 + 1))

def generateMockData (rndPrice rndWatch : Nat → Nat → Nat)
    (rndDate : Nat → Nat → String) (sellers : List String)
    (maxPerSeller : Nat) : List SampleItem :=
  List.flatten <| List.map
    (fun p =>
      List.map (mockItem rndPrice rndWatch rndDate p.2 p.1)
        (List.range (min maxPerSeller 5)))
    sellers.enum

/-- The `catch` block of `fetchSellerListings` (`browseAxios.ts`
lines 270–278): on any error thrown inside the `try` block, run
`tryPriceBands`; if it returns items use them (note: *not* sliced to
`maxPerSeller`), else fall back to the web scrape.  An error thrown by
`tryPriceBands` itself propagates out of `fetchSellerListings`. -/
def catchPath (net : BrowseNet) (webIds : List Nat)
    (itemById : Nat → Option SampleItem) (maxPer fuel : Nat) :
    Except Unit (List SampleItem) × List NetEvent :=
  match tryPriceBands net maxPer fuel with
  | (Except.error e, log) => (Except.error e, log)
  | (Except.ok banded, log) =>
    if 0 < banded.length then (Except.ok banded, log)
    else
      let w := fallbackSearchByWeb webIds itemById maxPer
      (Except.ok w.1, log ++ w.2)

/-- `fetchSellerListings` (`browseAxios.ts` lines 129–279).  The seller handle
only influences the outbound filter string, so it is left implicit in the
network oracle; `webIds` and `itemById` are the web-scrape oracles; `token`
selects the mock branch exactly as `token === "mock_token"` does in the
source. -/
def fetchSellerListings (net : BrowseNet) (webIds : List Nat)
    (itemById : Nat → Option SampleItem)
    (rndPrice rndWatch : Nat → Nat → Nat) (rndDate : Nat → Nat → String)
    (token seller : String) (maxPer fuel : Nat) :
    Except Unit (List SampleItem) × List NetEvent :=
  if token = "mock_token" then
    (Except.ok (generateMockData rndPrice rndWatch rndDate [seller] maxPer), [])
  else
    match tryLinearLoop net maxPer fuel 0 none [] with
    | (Except.error _, log1) =>
      let c := catchPath net webIds itemById maxPer fuel
      (c.1, log1 ++ c.2)
    | (Except.ok first, log1) =>
      if maxPer ≤ first.length then (Except.ok (List.take maxPer first), log1)
      else
        match unfilteredLoop net maxPer fuel 0 none (dedupFirst first) with
        | (Except.error _, log2) =>
          let c := catchPath net webIds itemById maxPer fuel
          (c.1, log1 ++ log2 ++ c.2)
        | (Except.ok dedup1, log2) =>
          let merged := mapValues dedup1
          if merged.length < maxPer then
            let needMore := maxPer - merged.length
            let w := fallbackSearchByWeb webIds itemById (needMore * 2)
            let dedup2 := addExtra maxPer dedup1 w.1
            let merged2 := mapValues dedup2
            if 0 < merged2.length then
              (Except.ok (List.take maxPer merged2), log1 ++ log2 ++ w.2)
            else
              let wz := fallbackSearchByWeb webIds itemById maxPer
              (Except.ok wz.1, log1 ++ log2 ++ w.2 ++ wz.2)
          else (Except.ok (List.take maxPer merged), log1 ++ log2)

/-- `isShoppingBlocked` (`browseAxios.ts` lines 23–25):
`Date.now() < shoppingApiBlockedUntil`. -/
def isShoppingBlocked (now blockedUntil : Nat) : Bool :=
  now < blockedUntil

/-- `blockShoppingFor` (`browseAxios.ts` lines 26–28): the new value of
`shoppingApiBlockedUntil`. -/
def blockShoppingFor (now ms : Nat) : Nat :=
  now + ms

/-- Outcome of one Shopping-API call (`fetchWatchCountShopping`,
`browseAxios.ts` lines 394–439): the mutated cooldown state, the value
returned, and whether an HTTP request was actually dispatched. -/
structure ShopResult where
  value : Option Int
  blockedUntil : Nat
  dispatched : Bool
deriving Repr, DecidableEq

/-- A Shopping-API response body, abstracted: whether it matches
`/IP limit exceeded/i`, and the `"WatchCount": n` extracted by the regex
(`none` also covers a thrown request, which the source catches and turns
into `null`). -/
structure ShoppingResp where
  ipLimit : Bool
  watchCount : Option Int
deriving Repr, DecidableEq

/-- `fetchWatchCountShopping` (`browseAxios.ts` lines 394–439): cache lookup
first, then the cooldown gate, then the credentials gate; only after all
three does a network request go out.  An `IP limit exceeded` body trips the
cooldown for 30 minutes and yields `null`. -/
def fetchWatchCountShopping (cache : String → Option Int) (credsPresent : Bool)
    (resp : ShoppingResp) (legacyId : String) (now blockedUntil : Nat) :
    ShopResult :=
  match cache ("wc:" ++ legacyId) with
  | some n => ⟨some n, blockedUntil, false⟩
  | none =>
    if isShoppingBlocked now blockedUntil then ⟨none, blockedUntil, false⟩
    else if ¬ credsPresent then ⟨none, blockedUntil, false⟩
    else if resp.ipLimit then ⟨none, blockShoppingFor now (30 * 60 * 1000), true⟩
    else ⟨resp.watchCount, blockedUntil, true⟩

/-- Outcome of one batch Shopping-API call (`fetchWatchCountsShoppingBatch`,
`browseAxios.ts` lines 441–499). -/
structure BatchResult where
  found : List (String × Int)
  blockedUntil : Nat
  dispatched : Bool
deriving Repr, DecidableEq

/-- `fetchWatchCountsShoppingBatch` (`browseAxios.ts` lines 441–499): an empty
id list, a fully cache-satisfied list, the cooldown gate and the credentials
gate all return without a network call; otherwise one `GetMultipleItems`
request goes out whose parsed `(ItemID, WatchCount)` pairs are the oracle
`respPairs`; an `IP limit exceeded` body trips the 30-minute cooldown. -/
def fetchWatchCountsShoppingBatch (cache : String → Option Int)
    (credsPresent : Bool) (ipLimit : Bool) (respPairs : List (String × Int))
    (legacyIds : List String) (now blockedUntil : Nat) : BatchResult :=
  if legacyIds = [] then ⟨[], blockedUntil, false⟩
  else
    let cachedPart := List.filterMap
      (fun id => (cache ("wc:" ++ id)).map (fun v => (id, v))) legacyIds
    let pending := List.filter (fun id => cache ("wc:" ++ id) = none) legacyIds
    if pending = [] then ⟨cachedPart, blockedUntil, false⟩
    else if isShoppingBlocked now blockedUntil then ⟨cachedPart, blockedUntil, false⟩
    else if ¬ credsPresent then ⟨cachedPart, blockedUntil, false⟩
    else if ipLimit then ⟨cachedPart, blockShoppingFor now (30 * 60 * 1000), true⟩
    else ⟨cachedPart ++ respPairs, blockedUntil, true⟩

/-- A token-endpoint response for one attempt (`getAppToken`,
`browseAxios.ts` lines 93–118): transport failure, or an HTTP response with
status, optional `error` field, optional `access_token` and `expires_in`. -/
inductive TokenNetResp where
  | netfail
  | resp (status : Nat) (error : Option String) (accessToken : Option String)
      (expiresIn : Nat)
deriving Repr, DecidableEq

/-- The token network oracle, indexed by scope and attempt number. -/
def TokenNet := String → Nat → TokenNetResp

/-- Result of `requestWithRetry` (`browseAxios.ts` lines 93–118): a token with
its `expires_in`, or failure (with the `invalid_scope` flag, which the
caller happens never to read). -/
inductive TokenOutcome where
  | ok (token : String) (expiresIn : Nat)
  | fail (invalidScope : Bool)
deriving Repr, DecidableEq

/-- `requestWithRetry` (`browseAxios.ts` lines 93–118), fuel = attempts left
(called with 3): 2xx with an `access_token` succeeds; `error ===
"invalid_scope"` fails immediately; 5xx and 429 retry; other responses fail;
a thrown request retries. -/
def requestWithRetry (net : TokenNet) (scope : String) : Nat → TokenOutcome
  | 0 => TokenOutcome.fail false
  | n + 1 =>
    match net scope (3 - (n + 1)) with
    | TokenNetResp.netfail => requestWithRetry net scope n
    | TokenNetResp.resp status error accessToken expiresIn =>
      if 200 ≤ status ∧ status < 300 ∧ accessToken.isSome then
        TokenOutcome.ok (accessToken.getD "") expiresIn
      else if error = some "invalid_scope" then TokenOutcome.fail true
      else if 500 ≤ status ∨ status = 429 then requestWithRetry net scope n
      else TokenOutcome.fail false

/-- The narrow OAuth scope tried first by `getAppToken`. -/
def browseScope : String := "https://api.ebay.com/oauth/api_scope/buy.browse"

/-- The broad fallback OAuth scope. -/
def baseScope : String := "https://api.ebay.com/oauth/api_scope"

/-- `getAppToken` (`browseAxios.ts` lines 74–127): missing credentials return
the literal string `"mock_token"`; a cached token still valid for more than
30 s is reused; otherwise the narrow scope then the broad scope are each
tried with 3 attempts, and if both fail the function again returns
`"mock_token"` — it never throws.  Returns the token together with the new
`cachedToken` state (`(token, expiresAt)`); `Date.now() <
cachedToken.expiresAt - 30_000` is rendered subtraction-free as
`now + 30000 < expiresAt`. -/
def getAppToken (net : TokenNet) (credsPresent : Bool) (now : Nat)
    (cached : Option (String × Nat)) : String × Option (String × Nat) :=
  if ¬ credsPresent then ("mock_token", cached)
  else
    match cached with
    | some (tok, expiresAt) =>
      if now + 30000 < expiresAt then (tok, cached)
      else
        match requestWithRetry net browseScope 3 with
        | TokenOutcome.ok t e => (t, some (t, now + e * 1000))
        | TokenOutcome.fail _ =>
          match requestWithRetry net baseScope 3 with
          | TokenOutcome.ok t e => (t, some (t, now + e * 1000))
          | TokenOutcome.fail _ => ("mock_token", cached)
    | none =>
      match requestWithRetry net browseScope 3 with
      | TokenOutcome.ok t e => (t, some (t, now + e * 1000))
      | TokenOutcome.fail _ =>
        match requestWithRetry net baseScope 3 with
        | TokenOutcome.ok t e => (t, some (t, now + e * 1000))
        | TokenOutcome.fail _ => ("mock_token", cached)

/-- One enrichment slot of `enrichWatchCounts` (`browseAxios.ts`
lines 807–840): a record that already has a numeric `watchCount` is left
alone; otherwise the (error-swallowing) `fetchWatchCountForRow` cascade —
abstracted to the oracle `wc`, with `none` covering every failure — either
fills in the count or leaves the record unchanged. -/
def enrichSlot (wc : Nat → NormalizedRow → Option Int) (i : Nat)
    (row : NormalizedRow) : NormalizedRow :=
  if row.watchCount.isSome then row
  else
    match wc i row with
    | some n => { row with watchCount := some n }
    | none => row

/-- `enrichWatchCounts` (`browseAxios.ts` lines 807–840): `out = [...rows]`,
then one task per index writes only its own slot (`out[index] = {
...out[index], watchCount }`), so the result is index-wise and independent of
task completion order; `Promise.all` of error-swallowing tasks never
rejects, so the function is total. -/
def enrichWatchCounts (wc : Nat → NormalizedRow → Option Int) :
    Nat → List NormalizedRow → List NormalizedRow
  | _, [] => []
  | i, row :: rest => enrichSlot wc i row :: enrichWatchCounts wc (i + 1) rest

/-- Stable insertion used to model `Array.prototype.sort(comparator)`:
`Ordering.lt` means the comparator returned a negative number (`x` before
`y`), `Ordering.gt` a positive one, `Ordering.eq` zero (or `NaN`, which the
engine treats like zero).  Inserting after equal elements preserves the
original relative order, matching the ES2019 stability guarantee. -/
def insertCmp (cmp : NormalizedRow → NormalizedRow → Ordering)
    (x : NormalizedRow) : List NormalizedRow → List NormalizedRow
  | [] => [x]
  | y :: ys =>
    if cmp x y = Ordering.lt then x :: y :: ys else y :: insertCmp cmp x ys

/-- `[...rows].sort(comparator)` as a stable insertion sort.  For the
consistent comparators used by `sortForDisplay` this coincides with the
ECMAScript-specified result (sorted per comparator, stable). -/
def jsSort (cmp : NormalizedRow → NormalizedRow → Ordering)
    (l : List NormalizedRow) : List NormalizedRow :=
  List.foldl (fun acc x => insertCmp cmp x acc) [] l

/-- The watch-count sort key: `r.watchCount ?? -1`. -/
def wcKey (r : NormalizedRow) : Int :=
  match r.watchCount with
  | some n => n
  | none => -1

/-- The comparator `(a, b) => (b.watchCount ?? -1) - (a.watchCount ?? -1)`
(descending by watch count), reduced to the sign the sort consumes. -/
def cmpWatch (a b : NormalizedRow) : Ordering :=
  if wcKey a < wcKey b then Ordering.gt
  else if wcKey b < wcKey a then Ordering.lt
  else Ordering.eq

/-- A JavaScript number as it occurs in the price comparator: `NaN` (a
non-numeric `priceValue` string), `Infinity` (absent `priceValue`), or a
finite value. -/
inductive JsNum where
  | nan
  | inf
  | num (q : Rat)
deriving Repr, DecidableEq

/-- `Number(r.priceValue ?? Infinity)`: absent gives `Infinity`; a present
string goes through the `Number` conversion oracle `np` (whose `none` is
`NaN`; real `Number` also maps `""` to `0`, which the oracle is free to
reflect). -/
def priceKey (np : String → Option Rat) (r : NormalizedRow) : JsNum :=
  match r.priceValue with
  | none => JsNum.inf
  | some s =>
    match np s with
    | none => JsNum.nan
    | some q => JsNum.num q

/-- The sign of `ap - bp` on JavaScript numbers: `Infinity - Infinity` and
any `NaN` operand give `NaN`, which the sort treats as zero. -/
def cmpPrice (np : String → Option Rat) (a b : NormalizedRow) : Ordering :=
  match priceKey np a, priceKey np b with
  | JsNum.num x, JsNum.num y =>
    if x < y then Ordering.lt else if y < x then Ordering.gt else Ordering.eq
  | JsNum.num _, JsNum.inf => Ordering.lt
  | JsNum.inf, JsNum.num _ => Ordering.gt
  | JsNum.inf, JsNum.inf => Ordering.eq
  | JsNum.nan, _ => Ordering.eq
  | _, JsNum.nan => Ordering.eq

/-- `r.itemCreationDate ? Date.parse(r.itemCreationDate) : 0`: an absent or
empty (falsy) date gives the epoch `0`; a present one goes through the
`Date.parse` oracle `dp` (whose `none` is `NaN`). -/
def dateKey (dp : String → Option Int) (r : NormalizedRow) : Option Int :=
  match r.itemCreationDate with
  | none => some 0
  | some s => if s = "" then some 0 else dp s

/-- The date comparator of `sortForDisplay` (`browseAxios.ts`
lines 312–319): `if (bd !== ad) return bd - ad;` then the ascending price
tie-break.  If either parsed date is `NaN`, `bd !== ad` holds and `bd - ad`
is `NaN`, treated as zero — the price tie-break is *not* reached. -/
def cmpDate (dp : String → Option Int) (np : String → Option Rat)
    (a b : NormalizedRow) : Ordering :=
  match dateKey dp b, dateKey dp a with
  | some bd, some ad =>
    if bd = ad then cmpPrice np a b
    else if ad < bd then Ordering.gt
    else Ordering.lt
  | _, _ => Ordering.eq

/-- `rows.some((r) => typeof r.watchCount === "number")`. -/
def hasWatch (rows : List NormalizedRow) : Bool :=
  List.any rows (fun r => r.watchCount.isSome)

/-- `sortForDisplay` (`browseAxios.ts` lines 305–320): if any record carries
a watch count, sort the copy descending by `watchCount ?? -1`; otherwise by
date descending with the ascending price tie-break. -/
def sortForDisplay (dp : String → Option Int) (np : String → Option Rat)
    (rows : List NormalizedRow) : List NormalizedRow :=
  if hasWatch rows then jsSort cmpWatch rows
  else jsSort (cmpDate dp np) rows

/-- Items of a simulated seller catalogue (`(item, price)` pairs) falling
inside one price band; the eBay `price:[lo..hi]` filter is inclusive at both
endpoints. -/
def bandItems (cat : List (SampleItem × Nat)) (band : Nat × Nat) :
    List SampleItem :=
  List.map Prod.fst
    (List.filter (fun ip => band.1 ≤ ip.2 ∧ ip.2 ≤ band.2) cat)

/-- A simulated Browse API over a fixed catalogue, used to exercise the
price-band strategy: every *unbanded* query answers HTTP 400 with errorId
12023 (the "result set too large to filter precisely" signal), and a banded
query returns the catalogue items inside the band, paged by
`offset`/`limit`. -/
def catalogNet (cat : List (SampleItem × Nat)) : BrowseNet := fun req =>
  match req.price with
  | some band =>
    some ⟨200, none, List.take req.limit (List.drop req.offset (bandItems cat band)), none⟩
  | none => some ⟨400, some 12023, [], none⟩

/-- The "at most" order on the JavaScript numbers of the price tie-break
(`NaN` never reaches it under the theorems' hypotheses, so it is harmless
here). -/
def jsPriceLe : JsNum → JsNum → Prop
  | JsNum.num x, JsNum.num y => x ≤ y
  | _, JsNum.inf => True
  | JsNum.inf, JsNum.num _ => False
  | JsNum.nan, _ => True
  | _, JsNum.nan => True

/-! ## Theorems -/

/-- C1 (corrected).  Amended claim: `extractLegacyId` attempts the three
surface forms in the order URL path segment `/itm/<id>`, then URL query
parameter `item=<id>`, then composite itemId parse — not composite first —
returning the first 6-or-more-digit match and `null` when no surface yields
one; the three concrete examples of the claim all hold. -/
theorem C1_extractLegacyId_amended :
    (∀ (row : NormalizedRow) u d, row.url = some u → itmPathId u = some d →
      extractLegacyId row = some d) ∧
    (∀ (row : NormalizedRow) u d, row.url = some u → itmPathId u = none →
      itemQueryId u = some d → extractLegacyId row = some d) ∧
    (∀ (row : NormalizedRow) u iid, row.url = some u → itmPathId u = none →
      itemQueryId u = none → row.itemId = some iid →
      extractLegacyId row = compositeId iid) ∧
    (∀ (row : NormalizedRow) iid, row.url = none → row.itemId = some iid →
      extractLegacyId row = compositeId iid) ∧
    (∀ (row : NormalizedRow), row.url = none → row.itemId = none →
      extractLegacyId row = none) ∧
    extractLegacyId { url := some "https://x/itm/146716939745?x=1" } =
      some "146716939745" ∧
    extractLegacyId { itemId := some "v1|146716939745|0" } =
      some "146716939745" ∧
    extractLegacyId { url := none, itemId := none } = none := by
  refine ⟨?_, ?_, ?_, ?_, ?_, by decide, by decide, by decide⟩
  · intro row u d h1 h2
    simp [extractLegacyId, h1, h2]
  · intro row u d h1 h2 h3
    simp [extractLegacyId, h1, h2, h3]
  · intro row u iid h1 h2 h3 h4
    simp [extractLegacyId, h1, h2, h3, h4]
  · intro row iid h1 h2
    simp [extractLegacyId, h1, h2]
  · intro row h1 h2
    simp [extractLegacyId, h1, h2]

/-- C1 witness: the amended order theorem applied at the URL-path example. -/
theorem C1_witness :
    extractLegacyId { url := some "https://x/itm/146716939745?x=1" } =
      some "146716939745" :=
  C1_extractLegacyId_amended.1
    { url := some "https://x/itm/146716939745?x=1" }
    "https://x/itm/146716939745?x=1" "146716939745" rfl (by decide)

/-- C1 counterexample: on a record where both the composite itemId and the
URL path yield (different) legacy IDs, the code returns the URL-path ID, not
the composite one — refuting the claimed composite-first order. -/
theorem C1_counterexample :
    extractLegacyId
      { itemId := some "v1|222222222|0",
        url := some "https://x/itm/111111111?x=1" } = some "111111111" ∧
    compositeId "v1|222222222|0" = some "222222222" ∧
    ("111111111" : String) ≠ "222222222" := by
  refine ⟨by decide, by decide, by decide⟩

/-- Inserting with `insertCmp` is a permutation-preserving cons. -/
theorem insertCmp_perm (cmp : NormalizedRow → NormalizedRow → Ordering)
    (x : NormalizedRow) : ∀ l, List.Perm (insertCmp cmp x l) (x :: l) := by
  intro l
  induction l with
  | nil => simp [insertCmp]
  | cons y ys ih =>
    by_cases h : cmp x y = Ordering.lt
    · simp [insertCmp, h]
    · simp only [insertCmp, if_neg h]
      exact (List.Perm.cons y ih).trans (List.Perm.swap x y ys)

/-- The insertion-sort fold permutes its input onto the accumulator. -/
theorem jsSortAux_perm (cmp : NormalizedRow → NormalizedRow → Ordering) :
    ∀ (l acc : List NormalizedRow),
      List.Perm (List.foldl (fun acc x => insertCmp cmp x acc) acc l) (acc ++ l) := by
  intro l
  induction l with
  | nil => intro acc; simp
  | cons x xs ih =>
    intro acc
    simp only [List.foldl_cons]
    refine (ih (insertCmp cmp x acc)).trans ?_
    refine (List.Perm.append_right xs (insertCmp_perm cmp x acc)).trans ?_
    simpa using List.perm_middle.symm

/-- `jsSort` returns a permutation of its input. -/
theorem jsSort_perm (cmp : NormalizedRow → NormalizedRow → Ordering)
    (l : List NormalizedRow) : List.Perm (jsSort cmp l) l := by
  simpa [jsSort] using jsSortAux_perm cmp l []

/-- `insertCmp` preserves sortedness for a consistent comparator. -/
theorem insertCmp_pairwise (cmp : NormalizedRow → NormalizedRow → Ordering)
    (hswap : ∀ a b, cmp a b ≠ Ordering.lt → cmp b a ≠ Ordering.gt)
    (htrans : ∀ a b c, cmp a b = Ordering.lt → cmp b c ≠ Ordering.gt →
      cmp a c ≠ Ordering.gt)
    (x : NormalizedRow) :
    ∀ l, List.Pairwise (fun a b => cmp a b ≠ Ordering.gt) l →
      List.Pairwise (fun a b => cmp a b ≠ Ordering.gt) (insertCmp cmp x l) := by
  intro l hl
  induction l with
  | nil => simp [insertCmp]
  | cons y ys ih =>
    rcases List.pairwise_cons.mp hl with ⟨hy, hys⟩
    by_cases h : cmp x y = Ordering.lt
    · simp only [insertCmp, if_pos h]
      refine List.pairwise_cons.mpr ⟨?_, hl⟩
      intro z hz
      rcases List.mem_cons.mp hz with rfl | hz2
      · rw [h]; simp
      · exact htrans x y z h (hy z hz2)
    · simp only [insertCmp, if_neg h]
      refine List.pairwise_cons.mpr ⟨?_, ih hys⟩
      intro z hz
      have hz3 : z ∈ x :: ys := (insertCmp_perm cmp x ys).mem_iff.mp hz
      rcases List.mem_cons.mp hz3 with rfl | hz4
      · exact hswap _ y h
      · exact hy z hz4

/-- The insertion-sort fold keeps the accumulator sorted. -/
theorem jsSortAux_pairwise (cmp : NormalizedRow → NormalizedRow → Ordering)
    (hswap : ∀ a b, cmp a b ≠ Ordering.lt → cmp b a ≠ Ordering.gt)
    (htrans : ∀ a b c, cmp a b = Ordering.lt → cmp b c ≠ Ordering.gt →
      cmp a c ≠ Ordering.gt) :
    ∀ (l acc : List NormalizedRow),
      List.Pairwise (fun a b => cmp a b ≠ Ordering.gt) acc →
      List.Pairwise (fun a b => cmp a b ≠ Ordering.gt)
        (List.foldl (fun acc x => insertCmp cmp x acc) acc l) := by
  intro l
  induction l with
  | nil => intro acc h; simpa using h
  | cons x xs ih =>
    intro acc h
    simp only [List.foldl_cons]
    exact ih (insertCmp cmp x acc) (insertCmp_pairwise cmp hswap htrans x acc h)

/-- `jsSort` sorts (w.r.t. "the comparator never says the pair is out of
order") for any consistent comparator. -/
theorem jsSort_pairwise (cmp : NormalizedRow → NormalizedRow → Ordering)
    (hswap : ∀ a b, cmp a b ≠ Ordering.lt → cmp b a ≠ Ordering.gt)
    (htrans : ∀ a b c, cmp a b = Ordering.lt → cmp b c ≠ Ordering.gt →
      cmp a c ≠ Ordering.gt)
    (l : List NormalizedRow) :
    List.Pairwise (fun a b => cmp a b ≠ Ordering.gt) (jsSort cmp l) :=
  jsSortAux_pairwise cmp hswap htrans l [] (List.Pairwise.nil)

/-- The watch-count comparator never flags a pair in both directions. -/
theorem cmpWatch_hswap :
    ∀ a b, cmpWatch a b ≠ Ordering.lt → cmpWatch b a ≠ Ordering.gt := by
  intro a b
  unfold cmpWatch
  split_ifs <;> simp_all <;> omega

/-- The watch-count comparator is transitively consistent. -/
theorem cmpWatch_htrans :
    ∀ a b c, cmpWatch a b = Ordering.lt → cmpWatch b c ≠ Ordering.gt →
      cmpWatch a c ≠ Ordering.gt := by
  intro a b c
  unfold cmpWatch
  split_ifs <;> simp_all <;> omega

/-- Pairs the watch-count comparator does not flag are exactly the pairs with
descending (weak) keys. -/
theorem cmpWatch_ne_gt_iff :
    ∀ a b, cmpWatch a b ≠ Ordering.gt ↔ wcKey b ≤ wcKey a := by
  intro a b
  unfold cmpWatch
  split_ifs <;> simp_all <;> omega

/-- The price tie-break comparator never flags a pair in both directions. -/
theorem cmpPrice_hswap (np : String → Option Rat) :
    ∀ a b, cmpPrice np a b ≠ Ordering.lt → cmpPrice np b a ≠ Ordering.gt := by
  intro a b
  unfold cmpPrice
  rcases priceKey np a with _ | _ | x <;> rcases priceKey np b with _ | _ | y <;>
    simp_all

/-- The price tie-break comparator is transitively consistent. -/
theorem cmpPrice_htrans (np : String → Option Rat) :
    ∀ a b c, cmpPrice np a b = Ordering.lt → cmpPrice np b c ≠ Ordering.gt →
      cmpPrice np a c ≠ Ordering.gt := by
  intro a b c
  unfold cmpPrice
  rcases priceKey np a with _ | _ | x <;> rcases priceKey np b with _ | _ | y <;>
    rcases priceKey np c with _ | _ | z <;> simp_all
  intro hxy hyz hzx
  have h1 : z < y := by linarith
  linarith [hyz (le_of_lt h1)]

/-- The date comparator never flags a pair in both directions. -/
theorem cmpDate_hswap (dp : String → Option Int) (np : String → Option Rat) :
    ∀ a b, cmpDate dp np a b ≠ Ordering.lt → cmpDate dp np b a ≠ Ordering.gt := by
  intro a b
  unfold cmpDate
  rcases dateKey dp b with _ | bd <;> rcases dateKey dp a with _ | ad <;> simp_all
  by_cases hbd : bd = ad
  · subst hbd
    simpa using cmpPrice_hswap np a b
  · have hab : ¬ ad = bd := fun e => hbd e.symm
    simp only [if_neg hbd, if_neg hab]
    omega

/-- The date comparator is transitively consistent. -/
theorem cmpDate_htrans (dp : String → Option Int) (np : String → Option Rat) :
    ∀ a b c, cmpDate dp np a b = Ordering.lt → cmpDate dp np b c ≠ Ordering.gt →
      cmpDate dp np a c ≠ Ordering.gt := by
  intro a b c
  unfold cmpDate
  rcases dateKey dp b with _ | bd <;> rcases dateKey dp a with _ | ad <;>
    rcases dateKey dp c with _ | cd <;> simp_all
  by_cases h1 : bd = ad <;> by_cases h2 : cd = bd <;> by_cases h3 : cd = ad <;>
    simp_all
  all_goals try (intros; omega)
  exact fun hab hbc => cmpPrice_htrans np a b c hab hbc

/-- An unflagged price pair (no `NaN` involved) is ascending. -/
theorem cmpPrice_ne_gt_jsPriceLe (np : String → Option Rat)
    (a b : NormalizedRow) (ha : priceKey np a ≠ JsNum.nan)
    (hb : priceKey np b ≠ JsNum.nan) :
    cmpPrice np a b ≠ Ordering.gt → jsPriceLe (priceKey np a) (priceKey np b) := by
  unfold cmpPrice jsPriceLe
  rcases priceKey np a with _ | _ | x <;> rcases priceKey np b with _ | _ | y <;>
    simp_all
  intro h
  rcases le_or_lt x y with h2 | h2
  · exact h2
  · exact h (le_of_lt h2)

/-- C10 (confirmed).  `sortForDisplay` copies its input (`[...rows]`) before
sorting, so the input array and its records are untouched (the embedding is a
pure function), and for every input the output is a permutation of the
input — the same records as a multiset, in both sort modes. -/
theorem C10_sortForDisplay_perm :
    ∀ (dp : String → Option Int) (np : String → Option Rat)
      (rows : List NormalizedRow),
      List.Perm (sortForDisplay dp np rows) rows := by
  intro dp np rows
  unfold sortForDisplay
  by_cases h : hasWatch rows <;> simp [h, jsSort_perm]

/-- C6 (confirmed).  When some record has a numeric watch count the whole set
is sorted descending by `watchCount ?? -1` (so absent counts — key `-1` —
come after all non-negative present ones); otherwise the set is sorted
descending by parsed listing date (absent/empty dates count as the epoch)
with ties broken ascending by price, absent prices (key `Infinity`) last.
Includes the two concrete examples of the claim. -/
theorem C6_sortForDisplay_order :
    (∀ (dp : String → Option Int) (np : String → Option Rat)
      (rows : List NormalizedRow), hasWatch rows = true →
      List.Pairwise (fun a b => wcKey b ≤ wcKey a) (sortForDisplay dp np rows)) ∧
    (∀ (dp : String → Option Int) (np : String → Option Rat)
      (rows : List NormalizedRow), hasWatch rows = true →
      (∀ r ∈ rows, ∀ n : Int, r.watchCount = some n → 0 ≤ n) →
      List.Pairwise (fun a b => a.watchCount = none → b.watchCount = none)
        (sortForDisplay dp np rows)) ∧
    (∀ (dp : String → Option Int) (np : String → Option Rat)
      (rows : List NormalizedRow), hasWatch rows = false →
      (∀ r ∈ rows, (dateKey dp r).isSome = true) →
      (∀ r ∈ rows, priceKey np r ≠ JsNum.nan) →
      List.Pairwise (fun a b => ∃ da db, dateKey dp a = some da ∧
        dateKey dp b = some db ∧
        (db < da ∨ (db = da ∧ jsPriceLe (priceKey np a) (priceKey np b))))
        (sortForDisplay dp np rows)) ∧
    sortForDisplay (fun _ => some 0) (fun _ => some 0)
      [{ watchCount := some 5 }, { watchCount := none }, { watchCount := some 10 }] =
      [{ watchCount := some 10 }, { watchCount := some 5 }, { watchCount := none }] ∧
    sortForDisplay
      (fun s => if s = "2024-06-01" then some 1717200000000 else
        if s = "2024-01-01" then some 1704067200000 else none)
      (fun s => if s = "10" then some 10 else if s = "20" then some 20 else none)
      [{ itemCreationDate := some "2024-01-01", priceValue := some "20" },
       { itemCreationDate := some "2024-06-01", priceValue := some "10" }] =
      [{ itemCreationDate := some "2024-06-01", priceValue := some "10" },
       { itemCreationDate := some "2024-01-01", priceValue := some "20" }] := by
  refine ⟨?_, ?_, ?_, by decide, by decide⟩
  · intro dp np rows h
    unfold sortForDisplay
    rw [if_pos h]
    exact (jsSort_pairwise cmpWatch cmpWatch_hswap cmpWatch_htrans rows).imp
      (fun hab => (cmpWatch_ne_gt_iff _ _).mp hab)
  · intro dp np rows h hnn
    unfold sortForDisplay
    rw [if_pos h]
    have hp := jsSort_pairwise cmpWatch cmpWatch_hswap cmpWatch_htrans rows
    refine hp.imp_of_mem ?_
    intro a b ha hb hab hnone
    have hle := (cmpWatch_ne_gt_iff a b).mp hab
    have hb2 : b ∈ rows := (jsSort_perm cmpWatch rows).mem_iff.mp hb
    rcases hwb : b.watchCount with _ | n
    · rfl
    · have h0 : (0 : Int) ≤ n := hnn b hb2 n hwb
      have hka : wcKey a = -1 := by simp [wcKey, hnone]
      have hkb : wcKey b = n := by simp [wcKey, hwb]
      omega
  · intro dp np rows h hd hp
    unfold sortForDisplay
    rw [if_neg (by simp [h])]
    have hpw := jsSort_pairwise (cmpDate dp np) (cmpDate_hswap dp np)
      (cmpDate_htrans dp np) rows
    refine hpw.imp_of_mem ?_
    intro a b ha hb hab
    have ha2 : a ∈ rows := (jsSort_perm (cmpDate dp np) rows).mem_iff.mp ha
    have hb2 : b ∈ rows := (jsSort_perm (cmpDate dp np) rows).mem_iff.mp hb
    rcases hda : dateKey dp a with _ | da
    · exact absurd (hda ▸ hd a ha2) (by simp)
    rcases hdb : dateKey dp b with _ | db
    · exact absurd (hdb ▸ hd b hb2) (by simp)
    refine ⟨da, db, rfl, rfl, ?_⟩
    unfold cmpDate at hab
    rw [hda, hdb] at hab
    change (if db = da then cmpPrice np a b
      else if da < db then Ordering.gt else Ordering.lt) ≠ Ordering.gt at hab
    by_cases heq : db = da
    · subst heq
      rw [if_pos rfl] at hab
      exact Or.inr ⟨rfl, cmpPrice_ne_gt_jsPriceLe np a b (hp a ha2) (hp b hb2) hab⟩
    · rw [if_neg heq] at hab
      left
      by_cases hlt : da < db
      · rw [if_pos hlt] at hab
        exact absurd rfl hab
      · omega

/-- C6 witness: the descending-watch-count conjunct applied to the claim's
example rows. -/
theorem C6_witness :
    List.Pairwise (fun a b => wcKey b ≤ wcKey a)
      (sortForDisplay (fun _ => some 0) (fun _ => some 0)
        [{ watchCount := some 5 }, { watchCount := none },
         { watchCount := some 10 }]) :=
  C6_sortForDisplay_order.1 (fun _ => some 0) (fun _ => some 0)
    [{ watchCount := some 5 }, { watchCount := none }, { watchCount := some 10 }]
    (by decide)

/-- The enriched list always has the input's length. -/
theorem enrichWatchCounts_length (wc : Nat → NormalizedRow → Option Int) :
    ∀ (rows : List NormalizedRow) (i : Nat),
      (enrichWatchCounts wc i rows).length = rows.length := by
  intro rows
  induction rows with
  | nil => intro i; rfl
  | cons r rest ih => intro i; simp [enrichWatchCounts, ih (i + 1)]

/-- Slot `j` of the enriched list is `enrichSlot` of input slot `j`. -/
theorem enrichWatchCounts_get (wc : Nat → NormalizedRow → Option Int) :
    ∀ (rows : List NormalizedRow) (i j : Nat) (h : j < rows.length)
      (h2 : j < (enrichWatchCounts wc i rows).length),
      (enrichWatchCounts wc i rows).get ⟨j, h2⟩ =
        enrichSlot wc (i + j) (rows.get ⟨j, h⟩) := by
  intro rows
  induction rows with
  | nil => intro i j h; exact absurd h (by simp)
  | cons r rest ih =>
    intro i j h h2
    cases j with
    | zero => simp [enrichWatchCounts]
    | succ k =>
      have hk : k < rest.length := by
        simpa using Nat.lt_of_succ_lt_succ h
      have hk2 : k < (enrichWatchCounts wc (i + 1) rest).length := by
        rw [enrichWatchCounts_length]
        exact hk
      have := ih (i + 1) k hk hk2
      simp only [enrichWatchCounts, List.get_cons_succ]
      rw [this]
      congr 1
      omega

/-- C4 (confirmed).  `enrichWatchCounts` preserves length and order (each
output slot is computed from the input slot of the same index, so completion
order of the concurrent tasks is irrelevant); each output record is either
the input record unchanged or the input record with `watchCount` going from
absent to a number; a present numeric `watchCount` is never overwritten.
Totality of the embedding reflects that every enrichment branch swallows its
own errors. -/
theorem C4_enrichWatchCounts_frame :
    ∀ (wc : Nat → NormalizedRow → Option Int) (rows : List NormalizedRow),
      (enrichWatchCounts wc 0 rows).length = rows.length ∧
      (∀ (j : Nat) (h : j < rows.length)
        (h2 : j < (enrichWatchCounts wc 0 rows).length),
        ((enrichWatchCounts wc 0 rows).get ⟨j, h2⟩ = rows.get ⟨j, h⟩ ∨
          ((rows.get ⟨j, h⟩).watchCount = none ∧ ∃ n : Int,
            (enrichWatchCounts wc 0 rows).get ⟨j, h2⟩ =
              { rows.get ⟨j, h⟩ with watchCount := some n })) ∧
        (∀ n : Int, (rows.get ⟨j, h⟩).watchCount = some n →
          (enrichWatchCounts wc 0 rows).get ⟨j, h2⟩ = rows.get ⟨j, h⟩)) := by
  intro wc rows
  refine ⟨enrichWatchCounts_length wc rows 0, ?_⟩
  intro j h h2
  have hg := enrichWatchCounts_get wc rows 0 j h h2
  rw [Nat.zero_add] at hg
  constructor
  · rcases hw : (rows.get ⟨j, h⟩).watchCount with _ | n
    · rcases hwc : wc j (rows.get ⟨j, h⟩) with _ | m
      · left
        rw [hg]
        unfold enrichSlot
        rw [hw, hwc]
        rfl
      · right
        refine ⟨rfl, m, ?_⟩
        rw [hg]
        unfold enrichSlot
        rw [hw, hwc]
        rfl
    · left
      rw [hg]
      unfold enrichSlot
      rw [hw]
      rfl
  · intro n hn
    rw [hg]
    unfold enrichSlot
    rw [hn]
    rfl

/-- C4 witness: a present watch count survives enrichment unchanged. -/
theorem C4_witness :
    (enrichWatchCounts (fun _ _ => some 7) 0
      [({ watchCount := some 3 } : NormalizedRow)]).get ⟨0, by decide⟩ =
      { watchCount := some 3 } :=
  ((C4_enrichWatchCounts_frame (fun _ _ => some 7)
    [{ watchCount := some 3 }]).2 0 (by decide) (by decide)).2 3 rfl

/-- Cache-hit unfolding of the single-item Shopping call. -/
theorem fetchWatchCountShopping_hit (cache : String → Option Int)
    (creds : Bool) (resp : ShoppingResp) (id : String) (now bu : Nat)
    (n : Int) (hc : cache ("wc:" ++ id) = some n) :
    fetchWatchCountShopping cache creds resp id now bu = ⟨some n, bu, false⟩ := by
  unfold fetchWatchCountShopping
  rw [hc]

/-- Cache-miss unfolding of the single-item Shopping call. -/
theorem fetchWatchCountShopping_miss (cache : String → Option Int)
    (creds : Bool) (resp : ShoppingResp) (id : String) (now bu : Nat)
    (hc : cache ("wc:" ++ id) = none) :
    fetchWatchCountShopping cache creds resp id now bu =
      (if isShoppingBlocked now bu then ⟨none, bu, false⟩
       else if ¬ creds then ⟨none, bu, false⟩
       else if resp.ipLimit then
         ⟨none, blockShoppingFor now (30 * 60 * 1000), true⟩
       else ⟨resp.watchCount, bu, true⟩) := by
  unfold fetchWatchCountShopping
  rw [hc]

/-- C5 (confirmed).  A dispatched Shopping-API call whose body signals the IP
limit sets the cooldown to exactly `now + 30` minutes; while the cooldown is
in force every single-item and every batch attempt returns without
dispatching a network request (whatever the cache or credentials state); and
once the 30 minutes have elapsed, an attempt that is not wholly satisfied
from cache (and has credentials) dispatches a network request again. -/
theorem C5_shopping_circuit_breaker :
    (∀ (cache : String → Option Int) (creds : Bool) (resp : ShoppingResp)
      (id : String) (now bu : Nat), resp.ipLimit = true →
      (fetchWatchCountShopping cache creds resp id now bu).dispatched = true →
      (fetchWatchCountShopping cache creds resp id now bu).blockedUntil =
        now + 30 * 60 * 1000) ∧
    (∀ (cache : String → Option Int) (creds : Bool) (resp : ShoppingResp)
      (id : String) (t t0 : Nat), t < t0 + 30 * 60 * 1000 →
      (fetchWatchCountShopping cache creds resp id t
        (t0 + 30 * 60 * 1000)).dispatched = false) ∧
    (∀ (cache : String → Option Int) (creds ip : Bool)
      (pairs : List (String × Int)) (ids : List String) (t t0 : Nat),
      t < t0 + 30 * 60 * 1000 →
      (fetchWatchCountsShoppingBatch cache creds ip pairs ids t
        (t0 + 30 * 60 * 1000)).dispatched = false) ∧
    (∀ (resp : ShoppingResp) (id : String) (t t0 : Nat),
      t0 + 30 * 60 * 1000 ≤ t →
      (fetchWatchCountShopping (fun _ => none) true resp id t
        (t0 + 30 * 60 * 1000)).dispatched = true) ∧
    (∀ (ip : Bool) (pairs : List (String × Int)) (id : String) (t t0 : Nat),
      t0 + 30 * 60 * 1000 ≤ t →
      (fetchWatchCountsShoppingBatch (fun _ => none) true ip pairs [id] t
        (t0 + 30 * 60 * 1000)).dispatched = true) := by
  refine ⟨?_, ?_, ?_, ?_, ?_⟩
  · intro cache creds resp id now bu hip hd
    rcases hc : cache ("wc:" ++ id) with _ | n
    · rw [fetchWatchCountShopping_miss cache creds resp id now bu hc] at hd ⊢
      split_ifs at hd ⊢ <;> simp_all [blockShoppingFor]
    · rw [fetchWatchCountShopping_hit cache creds resp id now bu n hc] at hd
      simp_all
  · intro cache creds resp id t t0 ht
    rcases hc : cache ("wc:" ++ id) with _ | n
    · rw [fetchWatchCountShopping_miss cache creds resp id t _ hc]
      have hb : isShoppingBlocked t (t0 + 30 * 60 * 1000) = true := by
        simp [isShoppingBlocked, ht]
      simp [hb]
    · rw [fetchWatchCountShopping_hit cache creds resp id t _ n hc]
  · intro cache creds ip pairs ids t t0 ht
    unfold fetchWatchCountsShoppingBatch
    have hb : isShoppingBlocked t (t0 + 30 * 60 * 1000) = true := by
      simp [isShoppingBlocked, ht]
    split_ifs <;> simp_all
  · intro resp id t t0 ht
    rw [fetchWatchCountShopping_miss _ _ _ _ _ _ rfl]
    have hb : isShoppingBlocked t (t0 + 30 * 60 * 1000) = false := by
      simp [isShoppingBlocked]
      omega
    simp [hb]
    split_ifs <;> simp
  · intro ip pairs id t t0 ht
    unfold fetchWatchCountsShoppingBatch
    have hb : isShoppingBlocked t (t0 + 30 * 60 * 1000) = false := by
      simp [isShoppingBlocked]
      omega
    split_ifs <;> simp_all

/-- C5 witness: the circuit-breaker conjuncts applied at concrete times — a
trip at time 0 blocks attempts (single and batch) at time 1, and a single
attempt at cooldown expiry dispatches. -/
theorem C5_witness :
    (fetchWatchCountShopping (fun _ => none) true ⟨false, some 4⟩ "123456" 1
      (0 + 30 * 60 * 1000)).dispatched = false ∧
    (fetchWatchCountsShoppingBatch (fun _ => none) true false [] ["123456"] 1
      (0 + 30 * 60 * 1000)).dispatched = false ∧
    (fetchWatchCountShopping (fun _ => none) true ⟨false, some 4⟩ "123456"
      (0 + 30 * 60 * 1000) (0 + 30 * 60 * 1000)).dispatched = true :=
  ⟨C5_shopping_circuit_breaker.2.1 (fun _ => none) true ⟨false, some 4⟩
      "123456" 1 0 (by omega),
   C5_shopping_circuit_breaker.2.2.1 (fun _ => none) true false [] ["123456"]
      1 0 (by omega),
   C5_shopping_circuit_breaker.2.2.2.1 ⟨false, some 4⟩ "123456"
      (0 + 30 * 60 * 1000) 0 (by omega)⟩

/-- A successful `requestWithRetry` token comes verbatim from some network
response. -/
theorem requestWithRetry_ok_src (net : TokenNet) (scope : String) :
    ∀ (n : Nat) (t : String) (e : Nat),
      requestWithRetry net scope n = TokenOutcome.ok t e →
      ∃ a s er ei, net scope a = TokenNetResp.resp s er (some t) ei := by
  intro n
  induction n with
  | zero => intro t e h; exact absurd h (by simp [requestWithRetry])
  | succ m ih =>
    intro t e h
    unfold requestWithRetry at h
    split at h
    · exact ih t e h
    · rename_i status error accessToken expiresIn heq
      split_ifs at h with h1 h2 h3
      · rcases h1 with ⟨hs1, hs2, hs3⟩
        rcases Option.isSome_iff_exists.mp hs3 with ⟨tok, htok⟩
        refine ⟨3 - (m + 1), status, error, expiresIn, ?_⟩
        rw [heq, htok]
        have ht : tok = t := by
          rw [htok] at h
          simpa using (TokenOutcome.ok.injEq _ _ _ _).mp h |>.1
        rw [ht]
      · exact ih t e h

/-- C7 (corrected).  Amended claim: the token acquisition used by the
pipeline (`getAppToken`) never fails with a caller-visible error; it
*silently substitutes* the literal `"mock_token"` exactly when credentials
are absent, or when there is no still-fresh cached token and both the narrow
and the broad scope exhaust all their retry attempts; in every other case it
returns a genuinely acquired (or cached) token. -/
theorem C7_getAppToken_amended :
    ∀ (net : TokenNet) (now : Nat) (cached : Option (String × Nat)),
      (∀ tok e, cached = some (tok, e) → tok ≠ "mock_token") →
      (∀ scope a s er t ei, net scope a = TokenNetResp.resp s er t ei →
        t ≠ some "mock_token") →
      ((getAppToken net false now cached).1 = "mock_token" ∧
       ((getAppToken net true now cached).1 = "mock_token" ↔
         ((∀ tok e, cached = some (tok, e) → ¬ (now + 30000 < e)) ∧
          (∀ t e, requestWithRetry net browseScope 3 ≠ TokenOutcome.ok t e) ∧
          (∀ t e, requestWithRetry net baseScope 3 ≠ TokenOutcome.ok t e)))) := by
  intro net now cached hcache hnet
  have hok : ∀ scope t e, requestWithRetry net scope 3 = TokenOutcome.ok t e →
      t ≠ "mock_token" := by
    intro scope t e h
    rcases requestWithRetry_ok_src net scope 3 t e h with ⟨a, s, er, ei, hr⟩
    intro hmock
    exact hnet scope a s er (some t) ei hr (by rw [hmock])
  constructor
  · simp [getAppToken]
  · unfold getAppToken
    simp only [not_true, if_false]
    rcases cached with _ | ⟨tok, expiresAt⟩
    · rcases h1 : requestWithRetry net browseScope 3 with ⟨t1, e1⟩ | b1
      · simp only
        constructor
        · intro hm
          exact absurd hm (hok browseScope t1 e1 h1)
        · intro ⟨hc, hb, _⟩
          exact absurd rfl (hb t1 e1)
      · rcases h2 : requestWithRetry net baseScope 3 with ⟨t2, e2⟩ | b2
        · simp only
          constructor
          · intro hm
            exact absurd hm (hok baseScope t2 e2 h2)
          · intro ⟨hc, _, hb2⟩
            exact absurd rfl (hb2 t2 e2)
        · simp only
          constructor
          · intro _
            refine ⟨by simp, ?_, ?_⟩
            · intro t e he
              exact absurd he (by simp)
            · intro t e he
              exact absurd he (by simp)
          · intro _
            trivial
    · simp only
      by_cases hfresh : now + 30000 < expiresAt
      · rw [if_pos hfresh]
        simp only
        constructor
        · intro hm
          exact absurd hm (hcache tok expiresAt rfl)
        · intro ⟨hc, _, _⟩
          exact absurd hfresh (hc tok expiresAt rfl)
      · rw [if_neg hfresh]
        rcases h1 : requestWithRetry net browseScope 3 with ⟨t1, e1⟩ | b1
        · simp only
          constructor
          · intro hm
            exact absurd hm (hok browseScope t1 e1 h1)
          · intro ⟨hc, hb, _⟩
            exact absurd rfl (hb t1 e1)
        · rcases h2 : requestWithRetry net baseScope 3 with ⟨t2, e2⟩ | b2
          · simp only
            constructor
            · intro hm
              exact absurd hm (hok baseScope t2 e2 h2)
            · intro ⟨hc, _, hb2⟩
              exact absurd rfl (hb2 t2 e2)
          · simp only
            constructor
            · intro _
              refine ⟨?_, ?_, ?_⟩
              · intro tok2 e2 heq
                rcases heq with ⟨⟩
                exact fun hlt => hfresh hlt
              · intro t e he
                exact absurd he (by simp)
              · intro t e he
                exact absurd he (by simp)
            · intro _
              trivial

/-- C7 witness: with no cache and a network that always fails transport, the
amended theorem yields the mock-token fallback. -/
theorem C7_witness :
    (getAppToken (fun _ _ => TokenNetResp.netfail) true 0 none).1 =
      "mock_token" := by
  have hrw : ∀ scope, requestWithRetry (fun _ _ => TokenNetResp.netfail)
      scope 3 = TokenOutcome.fail false := fun _ => rfl
  have h := C7_getAppToken_amended (fun _ _ => TokenNetResp.netfail) 0 none
    (fun tok e he => absurd he (by simp))
    (fun scope a s er t ei he => absurd he (by simp))
  refine h.2.mpr ⟨fun tok e he => absurd he (by simp), ?_, ?_⟩
  · intro t e he
    rw [hrw] at he
    exact absurd he (by simp)
  · intro t e he
    rw [hrw] at he
    exact absurd he (by simp)

/-- C7 counterexample: with absent credentials (and likewise when both
scopes exhaust their retries) `getAppToken` does not fail with a
caller-visible error — it silently returns the literal `"mock_token"`,
refuting the claimed "fails iff … / never substitutes a mock" contract. -/
theorem C7_counterexample :
    (getAppToken (fun _ _ => TokenNetResp.netfail) false 0 none).1 =
      "mock_token" ∧
    (getAppToken (fun _ _ => TokenNetResp.resp 400 none none 0) true 0
      none).1 = "mock_token" := by
  constructor
  · rfl
  · rfl

/-- `mapHas` agrees with key membership. -/
theorem mapHas_iff : ∀ (m : ItemMap) (k : String),
    mapHas m k = true ↔ k ∈ List.map Prod.fst m := by
  intro m k
  induction m with
  | nil => simp [mapHas]
  | cons p t ih =>
    simp only [mapHas, Bool.or_eq_true, decide_eq_true_eq, List.map_cons,
      List.mem_cons, ih]
    constructor
    · rintro (h | h)
      · exact Or.inl h.symm
      · exact Or.inr h
    · rintro (h | h)
      · exact Or.inl h.symm
      · exact Or.inr h

/-- A key never inserted is not found. -/
theorem mapLookup_of_not_has : ∀ (m : ItemMap) (k : String),
    mapHas m k = false → mapLookup m k = none := by
  intro m k
  induction m with
  | nil => intro _; rfl
  | cons p t ih =>
    intro h
    simp only [mapHas, Bool.or_eq_false_iff] at h
    simp only [mapLookup, if_neg (by simpa using h.1)]
    exact ih h.2

/-- Replacing under key `k` makes lookup of `k` yield the new value. -/
theorem mapLookup_replace_self (k : String) (v : SampleItem) :
    ∀ t : ItemMap, mapHas t k = true →
      mapLookup (List.map (fun p => if p.1 = k then (k, v) else p) t) k =
        some v := by
  intro t
  induction t with
  | nil => intro h; simp [mapHas] at h
  | cons p t ih =>
    intro h
    by_cases hp : p.1 = k
    · simp only [List.map_cons, if_pos hp, mapLookup]
      simp
    · simp only [List.map_cons, if_neg hp, mapLookup]
      apply ih
      simp only [mapHas, Bool.or_eq_true] at h
      rcases h with h | h
      · exact absurd (by simpa using h) hp
      · exact h

/-- Appending a fresh binding makes lookup of its key yield the value. -/
theorem mapLookup_append_self (k : String) (v : SampleItem) :
    ∀ t : ItemMap, mapHas t k = false → mapLookup (t ++ [(k, v)]) k = some v := by
  intro t
  induction t with
  | nil =>
    intro _
    simp only [List.nil_append, mapLookup]
    simp
  | cons p t ih =>
    intro h
    simp only [mapHas, Bool.or_eq_false_iff] at h
    simp only [List.cons_append, mapLookup]
    rw [if_neg (show ¬ p.1 = k by simpa using h.1)]
    exact ih h.2

/-- Replacing under key `k` leaves lookups of other keys untouched. -/
theorem mapLookup_replace_other (k k2 : String) (v : SampleItem)
    (hne : ¬ k2 = k) :
    ∀ t : ItemMap,
      mapLookup (List.map (fun p => if p.1 = k then (k, v) else p) t) k2 =
        mapLookup t k2 := by
  intro t
  induction t with
  | nil => rfl
  | cons p t ih =>
    by_cases hp : p.1 = k
    · simp only [List.map_cons, if_pos hp, mapLookup]
      rw [if_neg (show ¬ (k, v).1 = k2 from fun e => hne (e.symm)),
        if_neg (show ¬ p.1 = k2 from by rw [hp]; exact fun e => hne e.symm)]
      exact ih
    · simp only [List.map_cons, if_neg hp, mapLookup]
      by_cases hp2 : p.1 = k2
      · rw [if_pos hp2, if_pos hp2]
      · rw [if_neg hp2, if_neg hp2]
        exact ih

/-- Appending a binding for key `k` leaves lookups of other keys untouched. -/
theorem mapLookup_append_other (k k2 : String) (v : SampleItem)
    (hne : ¬ k2 = k) :
    ∀ t : ItemMap, mapLookup (t ++ [(k, v)]) k2 = mapLookup t k2 := by
  intro t
  induction t with
  | nil =>
    simp only [List.nil_append, mapLookup]
    rw [if_neg (show ¬ (k, v).1 = k2 from fun e => hne (e.symm))]
  | cons p t ih =>
    simp only [List.cons_append, mapLookup]
    by_cases hp : p.1 = k2
    · rw [if_pos hp, if_pos hp]
    · rw [if_neg hp, if_neg hp]
      exact ih

/-- `set` puts the value under its key. -/
theorem mapLookup_mapSet_self (m : ItemMap) (k : String) (v : SampleItem) :
    mapLookup (mapSet m k v) k = some v := by
  unfold mapSet
  by_cases h : mapHas m k
  · rw [if_pos h]
    exact mapLookup_replace_self k v m h
  · rw [if_neg h]
    exact mapLookup_append_self k v m (by simpa using h)

/-- `set` leaves other keys untouched. -/
theorem mapLookup_mapSet_other (m : ItemMap) (k k2 : String) (v : SampleItem)
    (hne : ¬ k2 = k) : mapLookup (mapSet m k v) k2 = mapLookup m k2 := by
  unfold mapSet
  by_cases h : mapHas m k
  · rw [if_pos h]
    exact mapLookup_replace_other k k2 v hne m
  · rw [if_neg h]
    exact mapLookup_append_other k k2 v hne m

/-- Replacement under a key preserves the key sequence. -/
theorem map_fst_replace (k : String) (v : SampleItem) :
    ∀ t : ItemMap,
      List.map Prod.fst (List.map (fun p => if p.1 = k then (k, v) else p) t) =
        List.map Prod.fst t := by
  intro t
  induction t with
  | nil => rfl
  | cons p t ih =>
    by_cases hp : p.1 = k
    · simp only [List.map_cons, if_pos hp, ih]
      simp [hp]
    · simp only [List.map_cons, if_neg hp, ih]

/-- `set` does not change the key sequence when the key is present, and
appends it when absent. -/
theorem keys_mapSet (m : ItemMap) (k : String) (v : SampleItem) :
    List.map Prod.fst (mapSet m k v) =
      (if mapHas m k then List.map Prod.fst m
       else List.map Prod.fst m ++ [k]) := by
  unfold mapSet
  by_cases h : mapHas m k
  · rw [if_pos h, if_pos h]
    exact map_fst_replace k v m
  · rw [if_neg h, if_neg h]
    simp

/-- `set` preserves key uniqueness. -/
theorem nodup_keys_mapSet (m : ItemMap) (k : String) (v : SampleItem)
    (h : (List.map Prod.fst m).Nodup) :
    (List.map Prod.fst (mapSet m k v)).Nodup := by
  rw [keys_mapSet]
  by_cases hh : mapHas m k
  · rw [if_pos hh]
    exact h
  · rw [if_neg hh]
    have hk : k ∉ List.map Prod.fst m := by
      intro hmem
      exact hh ((mapHas_iff m k).mpr hmem)
    simp [List.nodup_append, h, hk]

/-- `getLast?` of a cons: the last of the tail if any, else the head. -/
theorem getLast?_cons_eq {α : Type} (a : α) (l : List α) :
    (a :: l).getLast? =
      (match l.getLast? with
       | some b => some b
       | none => some a) := by
  induction l generalizing a with
  | nil => rfl
  | cons b t ih =>
    rw [List.getLast?_cons_cons, ih b]
    rcases ht : t.getLast? with _ | c
    · simp
    · simp

/-- Looking up a key after the first-batch fold yields the *last* record of
the batch carrying that key (or falls back to the initial map). -/
theorem foldl_dedupStep_lookup :
    ∀ (l : List SampleItem) (m : ItemMap) (k : String),
      mapLookup (List.foldl dedupStep m l) k =
        (match List.getLast? (List.filter (fun it => keyOf it = some k) l) with
         | some it => some it
         | none => mapLookup m k) := by
  intro l
  induction l with
  | nil => intro m k; rfl
  | cons it t ih =>
    intro m k
    simp only [List.foldl_cons]
    rcases hk : keyOf it with _ | k2
    · have hstep : dedupStep m it = m := by simp [dedupStep, hk]
      have hfil : List.filter (fun x => keyOf x = some k) (it :: t) =
          List.filter (fun x => keyOf x = some k) t := by
        simp [List.filter_cons, hk]
      rw [hstep, hfil, ih m k]
    · by_cases hkk : k2 = k
      · subst hkk
        have hstep : dedupStep m it = mapSet m k2 it := by simp [dedupStep, hk]
        have hfil : List.filter (fun x => keyOf x = some k2) (it :: t) =
            it :: List.filter (fun x => keyOf x = some k2) t := by
          simp [List.filter_cons, hk]
        rw [hstep, hfil, ih (mapSet m k2 it) k2, getLast?_cons_eq]
        rcases hlast : (List.filter (fun x => keyOf x = some k2) t).getLast? with _ | j
        · simp only
          exact mapLookup_mapSet_self m k2 it
        · simp only
      · have hstep : dedupStep m it = mapSet m k2 it := by simp [dedupStep, hk]
        have hfil : List.filter (fun x => keyOf x = some k) (it :: t) =
            List.filter (fun x => keyOf x = some k) t := by
          simp [List.filter_cons, hk, hkk]
        rw [hstep, hfil, ih (mapSet m k2 it) k]
        rcases hlast : (List.filter (fun x => keyOf x = some k) t).getLast? with _ | j
        · simp only
          exact mapLookup_mapSet_other m k2 k it (fun e => hkk e.symm)
        · simp only

/-- The first-batch fold keeps keys unique. -/
theorem foldl_dedupStep_nodup :
    ∀ (l : List SampleItem) (m : ItemMap),
      (List.map Prod.fst m).Nodup →
      (List.map Prod.fst (List.foldl dedupStep m l)).Nodup := by
  intro l
  induction l with
  | nil => intro m h; exact h
  | cons it t ih =>
    intro m h
    simp only [List.foldl_cons]
    apply ih
    unfold dedupStep
    rcases hk : keyOf it with _ | k
    · exact h
    · exact nodup_keys_mapSet m k it h

/-- C8 (corrected).  Amended claim: the merge key is `itemId` alone (records
whose `itemId` is absent or empty are dropped from the merge, never keyed by
a URL-derived legacy ID); within the initial location-filtered batch a later
record with the same key *overwrites* an earlier one, so the surviving
record is the last-seen of that batch; only the subsequent phases (the
unfiltered retry and the web-scrape merge) prefer the already-present
record.  The output still holds exactly one record per key. -/
theorem C8_dedup_amended :
    (∀ first : List SampleItem,
      (List.map Prod.fst (dedupFirst first)).Nodup) ∧
    (∀ (first : List SampleItem) (k : String),
      mapLookup (dedupFirst first) k =
        List.getLast? (List.filter (fun it => keyOf it = some k) first)) ∧
    (∀ (m : ItemMap) (it : SampleItem) (k : String), keyOf it = some k →
      mapHas m k = true → addItemIfAbsent m it = m) := by
  refine ⟨?_, ?_, ?_⟩
  · intro first
    exact foldl_dedupStep_nodup first [] (by simp)
  · intro first k
    unfold dedupFirst
    rw [foldl_dedupStep_lookup first [] k]
    rcases hlast : (List.filter (fun it => keyOf it = some k) first).getLast? with _ | j
    · rfl
    · rfl
  · intro m it k hk hhas
    simp [addItemIfAbsent, hk, hhas]

/-- C8 witness: the phase-preference conjunct applied concretely — an
already-present key is left untouched by the guarded insert. -/
theorem C8_witness :
    addItemIfAbsent
      [("300000001", { itemId := some "300000001", title := some "first" })]
      { itemId := some "300000001", title := some "second" } =
      [("300000001", { itemId := some "300000001", title := some "first" })] :=
  C8_dedup_amended.2.2
    [("300000001", { itemId := some "300000001", title := some "first" })]
    { itemId := some "300000001", title := some "second" } "300000001"
    (by decide) (by decide)

/-- C8 counterexample: two records with the same `itemId` in the
location-filtered batch.  The shortfall merge keeps the *second* record's
fields (`title := "second"`), refuting the claimed first-seen preference. -/
theorem C8_counterexample :
    (fetchSellerListings
      (fun req =>
        if req.useLocation ∧ req.offset = 0 then
          some ⟨200, none,
            [{ itemId := some "300000001", title := some "first" },
             { itemId := some "300000001", title := some "second" }], none⟩
        else some ⟨200, none, [], none⟩)
      [] (fun _ => none) (fun _ _ => 0) (fun _ _ => 0) (fun _ _ => "x")
      "tok" "seller" 3 5).1 =
      Except.ok [{ itemId := some "300000001", title := some "second" }] ∧
    ({ itemId := some "300000001", title := some "first" } : SampleItem) ≠
      { itemId := some "300000001", title := some "second" } := by
  refine ⟨by rfl, by decide⟩

/-- C2 (code bug).  Against a simulated API whose every unbanded query
answers HTTP 400 / errorId 12023 and whose banded queries have items to
give, `fetchSellerListings` returns empty without ever dispatching a single
price-banded request — even though `tryPriceBands` over the same network
would retrieve the items.  The source's own `catch` comments ("escalate to
banded search", "if still too large, skip to next band") document the
intended escalation, but `validateStatus: () => true` makes axios resolve
the 400 response, so the escalation code is unreachable: the error body is
read as an empty page and linear paging just ends. -/
theorem C2_escalation_dead_code :
    (fetchSellerListings (catalogNet [({ itemId := some "A" }, 10)]) []
      (fun _ => none) (fun _ _ => 0) (fun _ _ => 0) (fun _ _ => "x")
      "tok" "seller" 5 10).1 = Except.ok [] ∧
    List.all
      (fetchSellerListings (catalogNet [({ itemId := some "A" }, 10)]) []
        (fun _ => none) (fun _ _ => 0) (fun _ _ => 0) (fun _ _ => "x")
        "tok" "seller" 5 10).2
      (fun e => match e with
        | NetEvent.browse r => r.price = none
        | _ => true) = true ∧
    (tryPriceBands (catalogNet [({ itemId := some "A" }, 10)]) 5 10).1 =
      Except.ok [{ itemId := some "A" }] := by
  refine ⟨by rfl, by rfl, by rfl⟩

/-- C3 counterexample: a catalogue with one item priced 10 and one priced
1 000 001.  The union over all 8 bands retrieves only the first item: the
second lies above the last band's upper endpoint 1 000 000 (the claim's
"5000–∞" band is in fact `[5000, 1000000]`), so the union does not equal
the seller's full item set. -/
theorem C3_counterexample :
    (tryPriceBands (catalogNet
      [({ itemId := some "A" }, 10), ({ itemId := some "B" }, 1000001)])
      10 20).1 = Except.ok [{ itemId := some "A" }] ∧
    (({ itemId := some "B" } : SampleItem), 1000001) ∈
      [(({ itemId := some "A" } : SampleItem), 10),
       ({ itemId := some "B" }, 1000001)] ∧
    ({ itemId := some "B" } : SampleItem) ≠ { itemId := some "A" } := by
  refine ⟨by rfl, by decide, by decide⟩

/-- A take followed by dropping exactly what was taken restores the list. -/
theorem take_append_drop_len {α : Type} (n : Nat) (l : List α) :
    List.take n l ++ List.drop (List.take n l).length l = l := by
  rw [List.length_take]
  rcases le_or_lt n l.length with h | h
  · rw [min_eq_left h, List.take_append_drop]
  · rw [min_eq_right (le_of_lt h), List.drop_length, List.append_nil]
    exact List.take_of_length_le (le_of_lt h)

/-- Paging through one band of the simulated catalogue collects exactly the
remainder of the band (given room and fuel). -/
theorem bandLoop_catalog (cat : List (SampleItem × Nat)) (band : Nat × Nat)
    (maxPer : Nat) :
    ∀ (fuel offset : Nat) (acc : List SampleItem),
      acc.length + (List.drop offset (bandItems cat band)).length ≤ maxPer →
      (List.drop offset (bandItems cat band)).length + 1 ≤ fuel →
      (bandLoop (catalogNet cat) maxPer band fuel offset none acc).1 =
        Except.ok (acc ++ List.drop offset (bandItems cat band)) := by
  intro fuel
  induction fuel with
  | zero => intro offset acc h1 h2; omega
  | succ f ih =>
    intro offset acc h1 h2
    rcases hrest : List.drop offset (bandItems cat band) with _ | ⟨it, rest2⟩
    · simp only [bandLoop]
      by_cases hacc : acc.length < maxPer
      · rw [if_pos hacc]
        simp only [catalogNet, hrest]
        simp [normNext]
      · rw [if_neg hacc]
        simp
    · have hlen : 1 ≤ (List.drop offset (bandItems cat band)).length := by
        rw [hrest]; simp
      have hacc : acc.length < maxPer := by omega
      simp only [bandLoop]
      rw [if_pos hacc]
      simp only [catalogNet]
      have hlim : 1 ≤ min 200 (maxPer - acc.length) := by omega
      have hitems : List.take (min 200 (maxPer - acc.length))
          (List.drop offset (bandItems cat band)) ≠ [] := by
        rw [hrest]
        rcases Nat.exists_eq_add_of_le hlim with ⟨d, hd⟩
        simp [List.take_cons, ← hd]
        omega
      rw [← hrest]
      simp only [normNext]
      rw [if_neg (by simp [hitems])]
      set items := List.take (min 200 (maxPer - acc.length))
        (List.drop offset (bandItems cat band)) with hitemsdef
      have hil : items.length ≤
          (List.drop offset (bandItems cat band)).length := by
        rw [hitemsdef, List.length_take]
        omega
      have hil1 : 1 ≤ items.length := by
        rcases hit : items with _ | ⟨a, b⟩
        · exact absurd hit hitems
        · simp
      have hd2 : List.drop (offset + items.length) (bandItems cat band) =
          List.drop items.length (List.drop offset (bandItems cat band)) := by
        rw [List.drop_drop]
      have hrec := ih (offset + items.length) (acc ++ items) ?_ ?_
      · rw [hrec]
        congr 1
        rw [List.append_assoc]
        congr 1
        rw [hd2, hitemsdef]
        exact take_append_drop_len _ _
      · rw [hd2, List.length_append, List.length_drop]
        omega
      · rw [hd2, List.length_drop]
        omega

/-- Folding the band loop over a list of bands of the simulated catalogue
collects every band's items (given room and fuel). -/
theorem bandsLoop_catalog (cat : List (SampleItem × Nat)) (maxPer fuel : Nat) :
    ∀ (bs : List (Nat × Nat)) (acc : List SampleItem),
      acc.length +
        (List.map (fun b => (bandItems cat b).length) bs).sum ≤ maxPer →
      (∀ b ∈ bs, (bandItems cat b).length + 1 ≤ fuel) →
      (bandsLoop (catalogNet cat) maxPer fuel bs acc).1 =
        Except.ok (acc ++ List.flatten (List.map (bandItems cat) bs)) := by
  intro bs
  induction bs with
  | nil => intro acc h1 h2; simp [bandsLoop]
  | cons b rest ih =>
    intro acc h1 h2
    simp only [List.map_cons, List.sum_cons] at h1
    simp only [bandsLoop]
    by_cases hacc : acc.length < maxPer
    · rw [if_pos hacc]
      have hband := bandLoop_catalog cat b maxPer fuel 0 acc
        (by simpa using (by omega :
          acc.length + (bandItems cat b).length ≤ maxPer))
        (by simpa using h2 b (by simp))
      rcases hb : bandLoop (catalogNet cat) maxPer b fuel 0 none acc with ⟨r, log⟩
      rw [hb] at hband
      simp only at hband
      rw [List.drop_zero] at hband
      subst hband
      simp only
      rw [ih (acc ++ bandItems cat b) (by simp; omega)
        (fun b2 hb2 => h2 b2 (by simp [hb2]))]
      simp
    · rw [if_neg hacc]
      have hsum0 : (List.map (fun b => (bandItems cat b).length)
          (b :: rest)).sum = 0 := by
        simp only [List.map_cons, List.sum_cons]
        omega
      have hflat : List.flatten (List.map (bandItems cat) (b :: rest)) = [] := by
        have hlen : (List.flatten (List.map (bandItems cat) (b :: rest))).length
            = 0 := by
          rw [List.length_flatten, List.map_map]
          simpa using hsum0
        exact List.eq_nil_of_length_eq_zero hlen
      rw [hflat]
      simp

/-- Every price band tops out at 1 000 000. -/
theorem priceBands_ub : ∀ b ∈ priceBands, b.2 ≤ 1000000 := by decide

/-- Every price up to 1 000 000 falls in some band (the bands share their
endpoints, so the boundaries 20/50/100/200/500/1000/5000 are covered). -/
theorem priceBands_cover (p : Nat) (hp : p ≤ 1000000) :
    ∃ b ∈ priceBands, b.1 ≤ p ∧ p ≤ b.2 := by
  by_cases h1 : p ≤ 20
  · exact ⟨(0, 20), by decide, by omega, h1⟩
  by_cases h2 : p ≤ 50
  · exact ⟨(20, 50), by decide, by omega, h2⟩
  by_cases h3 : p ≤ 100
  · exact ⟨(50, 100), by decide, by omega, h3⟩
  by_cases h4 : p ≤ 200
  · exact ⟨(100, 200), by decide, by omega, h4⟩
  by_cases h5 : p ≤ 500
  · exact ⟨(200, 500), by decide, by omega, h5⟩
  by_cases h6 : p ≤ 1000
  · exact ⟨(500, 1000), by decide, by omega, h6⟩
  by_cases h7 : p ≤ 5000
  · exact ⟨(1000, 5000), by decide, by omega, h7⟩
  exact ⟨(5000, 1000000), by decide, by omega, hp⟩

/-- One band never holds more items than the catalogue. -/
theorem bandItems_length_le (cat : List (SampleItem × Nat)) (b : Nat × Nat) :
    (bandItems cat b).length ≤ cat.length := by
  unfold bandItems
  rw [List.length_map]
  exact List.length_filter_le _ _

/-- C3 (corrected).  Amended claim: with room (`maxPer`) and fuel for the
whole catalogue, the union of items accumulated by `tryPriceBands` across
the 8 bands equals the set of catalogue items priced **at most 1 000 000**:
the boundaries 20/50/100/200/500/1000/5000 are covered (adjacent bands share
endpoints inclusively), but the last band is `[5000, 1000000]`, not
`5000–∞`, so items priced above 1 000 000 are missed. -/
theorem C3_priceBands_amended :
    ∀ (cat : List (SampleItem × Nat)) (maxPer fuel : Nat),
      8 * cat.length ≤ maxPer → cat.length + 1 ≤ fuel →
      (tryPriceBands (catalogNet cat) maxPer fuel).1 =
        Except.ok (List.flatten (List.map (bandItems cat) priceBands)) ∧
      (∀ it : SampleItem,
        it ∈ List.flatten (List.map (bandItems cat) priceBands) ↔
          ∃ p, (it, p) ∈ cat ∧ p ≤ 1000000) := by
  intro cat maxPer fuel hmax hfuel
  constructor
  · unfold tryPriceBands
    have hsum : (List.map (fun b => (bandItems cat b).length) priceBands).sum
        ≤ 8 * cat.length := by
      have h1 := bandItems_length_le cat (0, 20)
      have h2 := bandItems_length_le cat (20, 50)
      have h3 := bandItems_length_le cat (50, 100)
      have h4 := bandItems_length_le cat (100, 200)
      have h5 := bandItems_length_le cat (200, 500)
      have h6 := bandItems_length_le cat (500, 1000)
      have h7 := bandItems_length_le cat (1000, 5000)
      have h8 := bandItems_length_le cat (5000, 1000000)
      simp only [priceBands, List.map_cons, List.map_nil, List.sum_cons,
        List.sum_nil]
      omega
    have := bandsLoop_catalog cat maxPer fuel priceBands []
      (by simpa using le_trans hsum hmax)
      (fun b _ => by
        have := bandItems_length_le cat b
        omega)
    simpa using this
  · intro it
    constructor
    · intro hmem
      rcases List.mem_flatten.mp hmem with ⟨l, hl, hil⟩
      rcases List.mem_map.mp hl with ⟨b, hbmem, rfl⟩
      unfold bandItems at hil
      rcases List.mem_map.mp hil with ⟨ip, hip, rfl⟩
      rcases List.mem_filter.mp hip with ⟨hcat, hband⟩
      simp only [decide_eq_true_eq] at hband
      exact ⟨ip.2, hcat, le_trans hband.2 (priceBands_ub b hbmem)⟩
    · intro ⟨p, hcat, hp⟩
      rcases priceBands_cover p hp with ⟨b, hbmem, hlo, hhi⟩
      refine List.mem_flatten.mpr ⟨bandItems cat b, List.mem_map.mpr
        ⟨b, hbmem, rfl⟩, ?_⟩
      unfold bandItems
      refine List.mem_map.mpr ⟨(it, p), List.mem_filter.mpr ⟨hcat, ?_⟩, rfl⟩
      simp [hlo, hhi]

/-- If the API honours the page limit, one band's loop never accumulates
beyond `maxPer`. -/
theorem bandLoop_le (net : BrowseNet) (maxPer : Nat) (band : Nat × Nat)
    (hnet : ∀ req res, net req = some res →
      res.itemSummaries.length ≤ req.limit) :
    ∀ (fuel offset : Nat) (nextUrl : Option String) (acc l : List SampleItem),
      acc.length ≤ maxPer →
      (bandLoop net maxPer band fuel offset nextUrl acc).1 = Except.ok l →
      l.length ≤ maxPer := by
  intro fuel
  induction fuel with
  | zero =>
    intro offset nextUrl acc l hacc hok
    simp [bandLoop] at hok
  | succ f ih =>
    intro offset nextUrl acc l hacc hok
    simp only [bandLoop] at hok
    by_cases h1 : acc.length < maxPer
    · rw [if_pos h1] at hok
      rcases hnet2 : net ⟨offset, min 200 (maxPer - acc.length), some band,
          true, nextUrl⟩ with _ | res
      · rw [hnet2] at hok
        simp at hok
      · rw [hnet2] at hok
        simp only at hok
        have hitems := hnet _ _ hnet2
        simp only at hitems
        by_cases h2 : res.itemSummaries = [] ∧ normNext res.next = none
        · rw [if_pos h2] at hok
          simp only [Except.ok.injEq] at hok
          subst hok
          simp only [List.length_append]
          omega
        · rw [if_neg h2] at hok
          refine ih _ _ _ l ?_ hok
          simp only [List.length_append]
          omega
    · rw [if_neg h1] at hok
      simp only [Except.ok.injEq] at hok
      subst hok
      exact hacc

/-- If the API honours the page limit, the whole band cascade never
accumulates beyond `maxPer`. -/
theorem bandsLoop_le (net : BrowseNet) (maxPer fuel : Nat)
    (hnet : ∀ req res, net req = some res →
      res.itemSummaries.length ≤ req.limit) :
    ∀ (bs : List (Nat × Nat)) (acc l : List SampleItem),
      acc.length ≤ maxPer →
      (bandsLoop net maxPer fuel bs acc).1 = Except.ok l →
      l.length ≤ maxPer := by
  intro bs
  induction bs with
  | nil =>
    intro acc l hacc hok
    simp only [bandsLoop, Except.ok.injEq] at hok
    subst hok
    exact hacc
  | cons b rest ih =>
    intro acc l hacc hok
    simp only [bandsLoop] at hok
    by_cases h1 : acc.length < maxPer
    · rw [if_pos h1] at hok
      rcases hb : bandLoop net maxPer b fuel 0 none acc with ⟨r, log⟩
      rw [hb] at hok
      rcases r with e | acc2
      · simp at hok
      · simp only at hok
        have hacc2 : acc2.length ≤ maxPer := by
          refine bandLoop_le net maxPer b hnet fuel 0 none acc acc2 hacc ?_
          rw [hb]
        exact ih acc2 l hacc2 hok
    · rw [if_neg h1] at hok
      simp only [Except.ok.injEq] at hok
      subst hok
      exact hacc

/-- The web fallback never returns more than requested. -/
theorem fallbackSearchByWeb_le (webIds : List Nat)
    (itemById : Nat → Option SampleItem) (maxPer : Nat) :
    (fallbackSearchByWeb webIds itemById maxPer).1.length ≤ maxPer := by
  unfold fallbackSearchByWeb
  by_cases h : searchWebForLegacyIds webIds maxPer = []
  · rw [if_pos h]
    simp
  · rw [if_neg h]
    simp [List.length_take]

/-- The catch path (price bands, then web) never returns more than
`maxPer` when the API honours the page limit. -/
theorem catchPath_le (net : BrowseNet) (webIds : List Nat)
    (itemById : Nat → Option SampleItem) (maxPer fuel : Nat)
    (hnet : ∀ req res, net req = some res →
      res.itemSummaries.length ≤ req.limit) :
    ∀ l, (catchPath net webIds itemById maxPer fuel).1 = Except.ok l →
      l.length ≤ maxPer := by
  intro l hok
  unfold catchPath at hok
  rcases hb : tryPriceBands net maxPer fuel with ⟨r, log⟩
  rw [hb] at hok
  rcases r with e | banded
  · simp at hok
  · simp only at hok
    by_cases h1 : 0 < banded.length
    · rw [if_pos h1] at hok
      simp only [Except.ok.injEq] at hok
      subst hok
      refine bandsLoop_le net maxPer fuel hnet priceBands [] banded
        (by simp) ?_
      have h2 : (tryPriceBands net maxPer fuel).1 = Except.ok banded := by
        rw [hb]
      simpa [tryPriceBands] using h2
    · rw [if_neg h1] at hok
      simp only [Except.ok.injEq] at hok
      subst hok
      exact fallbackSearchByWeb_le webIds itemById maxPer

/-- The mock generator emits at most `maxPerSeller` items per seller. -/
theorem generateMockData_single_le (rp rw2 : Nat → Nat → Nat)
    (rd : Nat → Nat → String) (seller : String) (maxPer : Nat) :
    (generateMockData rp rw2 rd [seller] maxPer).length ≤ maxPer := by
  simp [generateMockData, List.enum]

/-- Every successful `fetchSellerListings` result respects `maxPer`, given
that the API honours the page limit. -/
theorem fetchSellerListings_le
    (net : BrowseNet) (webIds : List Nat) (itemById : Nat → Option SampleItem)
    (rp rw2 : Nat → Nat → Nat) (rd : Nat → Nat → String)
    (token seller : String) (maxPer fuel : Nat)
    (hnet : ∀ req res, net req = some res →
      res.itemSummaries.length ≤ req.limit) :
    ∀ (l : List SampleItem) (log : List NetEvent),
      fetchSellerListings net webIds itemById rp rw2 rd token seller maxPer
        fuel = (Except.ok l, log) →
      l.length ≤ maxPer := by
  intro l log hok
  unfold fetchSellerListings at hok
  split at hok
  · simp only [Prod.mk.injEq, Except.ok.injEq] at hok
    rcases hok with ⟨hl, _⟩
    subst hl
    exact generateMockData_single_le rp rw2 rd seller maxPer
  · split at hok
    · simp only [Prod.mk.injEq] at hok
      exact catchPath_le net webIds itemById maxPer fuel hnet l hok.1
    · split at hok
      · simp only [Prod.mk.injEq, Except.ok.injEq] at hok
        rcases hok with ⟨hl, _⟩
        subst hl
        simp [List.length_take]
      · split at hok
        · simp only [Prod.mk.injEq] at hok
          exact catchPath_le net webIds itemById maxPer fuel hnet l hok.1
        · simp only at hok
          split at hok
          · split at hok
            · simp only [Prod.mk.injEq, Except.ok.injEq] at hok
              rcases hok with ⟨hl, _⟩
              subst hl
              simp [List.length_take]
            · simp only [Prod.mk.injEq, Except.ok.injEq] at hok
              rcases hok with ⟨hl, _⟩
              subst hl
              exact fallbackSearchByWeb_le webIds itemById maxPer
          · simp only [Prod.mk.injEq, Except.ok.injEq] at hok
            rcases hok with ⟨hl, _⟩
            subst hl
            simp [List.length_take]

/-- Linear paging over an always-empty API stops after one page. -/
theorem tryLinearLoop_empty (maxPer fuel : Nat) (h : 0 < maxPer) :
    tryLinearLoop (fun _ => some {}) maxPer (fuel + 1) 0 none [] =
      (Except.ok [],
        [NetEvent.browse ⟨0, min 200 maxPer, none, true, none⟩]) := by
  simp [tryLinearLoop, h, normNext]

/-- The unfiltered retry over an always-empty API stops after one page. -/
theorem unfilteredLoop_empty (maxPer fuel : Nat) (h : 0 < maxPer) :
    unfilteredLoop (fun _ => some {}) maxPer (fuel + 1) 0 none [] =
      (Except.ok [],
        [NetEvent.browse ⟨0, min 200 maxPer, none, false, none⟩]) := by
  simp [unfilteredLoop, h, normNext]

/-- C9 (confirmed).  First conjunct: whenever the Browse API honours the
requested page limit, every successful `fetchSellerListings` result — on the
happy path, the price-band path, the web-scrape path and the mock path alike
— has at most `maxPer` records.  Second conjunct: when every strategy yields
zero items (empty API pages, empty web scrape), the function returns the
empty list rather than throwing, and the web-scrape path is attempted
exactly twice — once for the shortfall and once more as the last resort. -/
theorem C9_fetchSellerListings_spec :
    (∀ (net : BrowseNet) (webIds : List Nat)
      (itemById : Nat → Option SampleItem) (rp rw2 : Nat → Nat → Nat)
      (rd : Nat → Nat → String) (token seller : String) (maxPer fuel : Nat)
      (l : List SampleItem) (log : List NetEvent),
      (∀ req res, net req = some res →
        res.itemSummaries.length ≤ req.limit) →
      fetchSellerListings net webIds itemById rp rw2 rd token seller maxPer
        fuel = (Except.ok l, log) →
      l.length ≤ maxPer) ∧
    (∀ (rp rw2 : Nat → Nat → Nat) (rd : Nat → Nat → String)
      (maxPer fuel : Nat), 0 < maxPer →
      (fetchSellerListings (fun _ => some {}) [] (fun _ => none) rp rw2 rd
        "tok" "s" maxPer (fuel + 1)).1 = Except.ok [] ∧
      (List.filter
        (fun e => match e with
          | NetEvent.webScrape _ => true
          | _ => false)
        (fetchSellerListings (fun _ => some {}) [] (fun _ => none) rp rw2 rd
          "tok" "s" maxPer (fuel + 1)).2).length = 2) := by
  constructor
  · intro net webIds itemById rp rw2 rd token seller maxPer fuel l log hnet hok
    exact fetchSellerListings_le net webIds itemById rp rw2 rd token seller
      maxPer fuel hnet l log hok
  · intro rp rw2 rd maxPer fuel h
    unfold fetchSellerListings
    rw [if_neg (by decide : ¬ ("tok" : String) = "mock_token")]
    rw [tryLinearLoop_empty maxPer fuel h]
    simp only
    rw [if_neg (by simp; omega :
      ¬ maxPer ≤ List.length ([] : List SampleItem))]
    simp only [dedupFirst, List.foldl_nil]
    rw [unfilteredLoop_empty maxPer fuel h]
    simp only
    simp [mapValues, h, fallbackSearchByWeb, searchWebForLegacyIds, dedupNats,
      addExtra]

/-- C9 witness: both conjuncts applied to the all-empty scenario with
`maxPer = 3`. -/
theorem C9_witness :
    (fetchSellerListings (fun _ => some {}) [] (fun _ => none)
      (fun _ _ => 0) (fun _ _ => 0) (fun _ _ => "d") "tok" "s" 3 1).1 =
      Except.ok [] ∧
    ([] : List SampleItem).length ≤ 3 :=
  ⟨(C9_fetchSellerListings_spec.2 (fun _ _ => 0) (fun _ _ => 0)
      (fun _ _ => "d") 3 0 (by decide)).1,
   C9_fetchSellerListings_spec.1 (fun _ => some {}) [] (fun _ => none)
     (fun _ _ => 0) (fun _ _ => 0) (fun _ _ => "d") "tok" "s" 3 1 []
     [NetEvent.browse ⟨0, 3, none, true, none⟩,
      NetEvent.browse ⟨0, 3, none, false, none⟩,
      NetEvent.webScrape 6, NetEvent.webScrape 3]
     (fun req res hr => by cases hr; simp) rfl⟩

/-- C3 witness: the amended band-union theorem applied to a one-item
catalogue. -/
theorem C3_witness :
    (tryPriceBands (catalogNet [(({ itemId := some "A" } : SampleItem), 10)])
      8 2).1 =
      Except.ok (List.flatten (List.map
        (bandItems [(({ itemId := some "A" } : SampleItem), 10)])
        priceBands)) :=
  (C3_priceBands_amended [({ itemId := some "A" }, 10)] 8 2 (by simp)
    (by simp)).1
